import Mathlib

/-!
Verification development for the text-adventure game engine
(`adventure.py`, `game_entities.py`, `event_logger.py`, `simulation.py`).

The Python code is shallowly embedded: each mutating method becomes a pure
function from the old state to the new state.  Python `dict`s become
association lists (first-match lookup, replace-or-append assignment),
Python `set`s become duplicate-free lists, Python object mutation becomes
functional record update keyed by the unique item name, and the
doubly-linked `EventList` becomes an explicit store of nodes addressed by
allocation index with `prev`/`next` pointers.  Console printing and the
interactive prompt are irrelevant to the state and are dropped; the code
path taken is preserved exactly.
-/

namespace Adventure

/-- `str.lower()` as used by the Python code for case-insensitive matching
(the game data is ASCII, where `Char.toLower` agrees with Python). -/
def lowerStr (s : String) : String := String.mk (s.data.map Char.toLower)

/-- Python `dict` lookup (`key in d` / `d[key]`) on an association list. -/
def dictGet {α : Type} : List (String × α) → String → Option α
  | [], _ => none
  | (k, v) :: rest, key => if k = key then some v else dictGet rest key

/-- Python `dict` assignment `d[key] = val`: replace the first binding of
`key`, or append a new binding if the key is absent. -/
def dictSet {α : Type} : List (String × α) → String → α → List (String × α)
  | [], key, val => [(key, val)]
  | (k, v) :: rest, key, val =>
      if k = key then (key, val) :: rest else (k, v) :: dictSet rest key val

/-- Python `set.add` on a duplicate-free list model of a set of strings. -/
def insertSet (s : List String) (x : String) : List String :=
  if x ∈ s then s else s ++ [x]

/-- A transition-table entry: an `int` destination location id, or a
string special-action tag. -/
abbrev CmdTarget := Int ⊕ String

/-- `game_entities.Location`. -/
structure Location where
  id_num : Int
  brief_description : String
  long_description : String
  available_commands : List (String × CmdTarget)
  items : List String
  visited : Bool := false
deriving DecidableEq, Repr

/-- `game_entities.Item`.  `current_position = -1` is the sentinel for
"held by the player". -/
structure Item where
  name : String
  description : String
  start_position : Int
  target_position : Int
  target_points : Int
  pickup_points : Int := 0
  current_position : Int := -1
deriving DecidableEq, Repr

/-- `Item.__post_init__`: an item constructed by the loader (with the
default `current_position = -1`) starts at its `start_position`. -/
def mkItem (name description : String) (start_position target_position
    target_points pickup_points : Int) : Item :=
  { name := name, description := description, start_position := start_position,
    target_position := target_position, target_points := target_points,
    pickup_points := pickup_points, current_position := start_position }

/-- `game_entities.Player`. -/
structure Player where
  inventory : List Item
  score : Int
  moves_made : Nat
  has_friend_permission : Bool
deriving DecidableEq, Repr

/-- `Player.__init__`: empty inventory, zero score, zero moves. -/
def Player.init : Player :=
  { inventory := [], score := 0, moves_made := 0, has_friend_permission := false }

/-- `Player.add_item`. -/
def Player.add_item (p : Player) (item : Item) : Player :=
  { p with inventory := p.inventory ++ [item] }

/-- Remove-and-return the first case-insensitive name match from a list of
items (`Player.remove_item` body). -/
def removeFirstItem : List Item → String → Option Item × List Item
  | [], _ => (none, [])
  | it :: rest, nm =>
      if lowerStr it.name = lowerStr nm then (some it, rest)
      else
        let r := removeFirstItem rest nm
        (r.1, it :: r.2)

/-- `Player.remove_item`: returns the removed item (or `none`) and the new
player. -/
def Player.remove_item (p : Player) (item_name : String) : Option Item × Player :=
  let r := removeFirstItem p.inventory item_name
  (r.1, { p with inventory := r.2 })

/-- `Player.has_item`. -/
def Player.has_item (p : Player) (item_name : String) : Bool :=
  p.inventory.any (fun it => lowerStr it.name = lowerStr item_name)

/-- `Player.add_score`. -/
def Player.add_score (p : Player) (points : Int) : Player :=
  { p with score := p.score + points }

/-- `Player.increment_moves`. -/
def Player.increment_moves (p : Player) : Player :=
  { p with moves_made := p.moves_made + 1 }

-- Game constants from `adventure.py`.

def BASE_MAX_MOVES : Nat := 28
def REQUIRED_ITEMS : List String := ["USB Drive", "Laptop Charger", "Lucky Mug"]
def SERVER_ROOM_ID : Int := 9
def COFFEE_BONUS_MOVES : Nat := 5
def MAX_SCORE : Int := 230
def RITUAL_LOCATION_ID : Int := 10
def RITUAL_ITEMS : List String := ["USB Drive", "Laptop Charger", "Lucky Mug"]
def DORM_LOCATION_ID : Int := 0

/-- `adventure.GameState`. -/
structure GameState where
  server_room_unlocked : Bool := false
  coffee_consumed : Bool := false
  puzzle_code : String := "1827"
  game_stage : String := "start"
  items_collected : List String := []
  ritual_complete : Bool := false
deriving DecidableEq, Repr

/-- `adventure.AdventureGame`: the session state.  `locations` is the
`_locations` dict (id-keyed association list), `items` the `_items` list. -/
structure AdventureGame where
  locations : List (Int × Location)
  items : List Item
  current_location_id : Int
  ongoing : Bool
  player : Player
  max_moves : Nat
  state : GameState
deriving DecidableEq, Repr

/-- Lookup in the `_locations` dict. -/
def lookupLoc : List (Int × Location) → Int → Option Location
  | [], _ => none
  | (k, v) :: rest, key => if k = key then some v else lookupLoc rest key

/-- Store an updated `Location` back into the `_locations` dict (Python
mutates the shared object in place; ids are unique dict keys). -/
def setLoc : List (Int × Location) → Int → Location → List (Int × Location)
  | [], _, _ => []
  | (k, v) :: rest, key, newLoc =>
      if k = key then (key, newLoc) :: rest else (k, v) :: setLoc rest key newLoc

/-- `AdventureGame.get_item`: first case-insensitive name match in `_items`. -/
def get_item (g : AdventureGame) (name_of_item : String) : Option Item :=
  g.items.find? (fun itemm => lowerStr itemm.name = lowerStr name_of_item)

/-- Python assignment `item.current_position = pos` on the object returned
by `get_item`: update the first case-insensitive name match in the
registry (item names are unique by the data-model invariant). -/
def setItemPos : List Item → String → Int → List Item
  | [], _, _ => []
  | it :: rest, nm, pos =>
      if lowerStr it.name = lowerStr nm then { it with current_position := pos } :: rest
      else it :: setItemPos rest nm pos

/-- The stage-advance cascade at the top of
`AdventureGame.check_stage_messages` (the printing below it is dropped). -/
def check_stage_update (st : GameState) : GameState :=
  let collected := REQUIRED_ITEMS.filter (fun r => r ∈ st.items_collected)
  let st1 := if st.game_stage = "start" ∧ collected ≠ []
             then { st with game_stage := "exploring" } else st
  let st2 := if st1.game_stage = "exploring" ∧ 2 ≤ collected.length
             then { st1 with game_stage := "gathering" } else st1
  if collected.length = 3 ∧ st2.ritual_complete = false
  then { st2 with game_stage := "ready_ritual" } else st2

/-- `AdventureGame._consume_coffee`. -/
def consume_coffee (g : AdventureGame) : AdventureGame :=
  if g.state.coffee_consumed then g
  else
    let g1 := { g with state := { g.state with coffee_consumed := true } }
    let g2 := { g1 with player := (g1.player.remove_item "coffee").2 }
    { g2 with max_moves := g2.max_moves + COFFEE_BONUS_MOVES }

/-- `AdventureGame._check_ritual`.  The `locationn` argument of the Python
method is the current location object, re-read here from the dict (the
drop command passes exactly that object and has just stored it). -/
def check_ritual (g : AdventureGame) : AdventureGame :=
  match lookupLoc g.locations g.current_location_id with
  | none => g
  | some locationn =>
    if g.state.ritual_complete then g
    else if ¬ (RITUAL_ITEMS.all (fun name_r => name_r ∈ locationn.items)) then g
    else
      let st1 := { g.state with ritual_complete := true, game_stage := "ritual_done" }
      let g1 := { g with state := st1 }
      let items1 := RITUAL_ITEMS.foldl (fun acc name => acc.erase name) locationn.items
      let loc1 := { locationn with items := items1 }
      let g2 := { g1 with locations := setLoc g1.locations g1.current_location_id loc1 }
      match get_item g2 "backup_usb" with
      | none => g2
      | some _ =>
        let g3 := { g2 with items := setItemPos g2.items "backup_usb" RITUAL_LOCATION_ID }
        let loc2 := { locationn with items := items1 ++ ["backup_usb"] }
        let g4 := { g3 with locations := setLoc g3.locations g3.current_location_id loc2 }
        { g4 with player := g4.player.add_score 50 }

/-- `AdventureGame.take_command`. -/
def take_command (g : AdventureGame) (taking_item_name : String) : AdventureGame :=
  match lookupLoc g.locations g.current_location_id with
  | none => g
  | some location1 =>
    let itemmOpt := get_item g taking_item_name
    let matchedOpt := location1.items.find?
      (fun name => lowerStr name = lowerStr taking_item_name)
    match itemmOpt, matchedOpt with
    | some itemm, some matched_name =>
      let loc1 := { location1 with items := location1.items.erase matched_name }
      let g1 := { g with locations := setLoc g.locations g.current_location_id loc1 }
      let g2 := { g1 with items := setItemPos g1.items taking_item_name (-1) }
      let held := { itemm with current_position := (-1 : Int) }
      let g3 := { g2 with player := (g2.player.add_item held).add_score itemm.pickup_points }
      let st1 := { g3.state with items_collected := insertSet g3.state.items_collected itemm.name }
      let g4 := { g3 with state := st1 }
      if lowerStr itemm.name = "coffee" then consume_coffee g4 else g4
    | _, _ => g

/-- `AdventureGame.drop_command`. -/
def drop_command (g : AdventureGame) (item__name : String) : AdventureGame :=
  let r := g.player.remove_item item__name
  match r.1 with
  | none => g
  | some itemm =>
    let g1 := { g with player := r.2 }
    match lookupLoc g1.locations g1.current_location_id with
    | none => g1
    | some locationn =>
      let loc1 := { locationn with items := locationn.items ++ [itemm.name] }
      let g2 := { g1 with locations := setLoc g1.locations g1.current_location_id loc1 }
      let g3 := { g2 with items := setItemPos g2.items itemm.name g2.current_location_id }
      let g4 := if g3.current_location_id = itemm.target_position ∧ 0 < itemm.target_points
                then { g3 with player := g3.player.add_score itemm.target_points }
                else g3
      if g4.current_location_id = RITUAL_LOCATION_ID then check_ritual g4 else g4

/-- `AdventureGame.examine_command` only prints; the session state is
unchanged on every path. -/
def examine_command (g : AdventureGame) (_item__name : String) : AdventureGame := g

/-- `AdventureGame.enter_code_command`, with the interactively-read code
passed as a parameter (already stripped, as `input().strip()` yields). -/
def enter_code_command (g : AdventureGame) (code : String) : AdventureGame :=
  if g.current_location_id ≠ 7 then g
  else if g.state.server_room_unlocked then g
  else if lowerStr code = "cancel" then g
  else if code = g.state.puzzle_code then
    let g1 := { g with state := { g.state with server_room_unlocked := true } }
    let g2 := match lookupLoc g1.locations 7 with
      | none => g1
      | some loc7 =>
        let newCmds := dictSet loc7.available_commands "go south" (Sum.inl 12)
        let loc7u := { loc7 with available_commands := newCmds }
        { g1 with locations := setLoc g1.locations 7 loc7u }
    { g2 with player := g2.player.add_score 20 }
  else g

/-- `AdventureGame.check_win`. -/
def check_win (g : AdventureGame) : Bool :=
  if g.current_location_id ≠ DORM_LOCATION_ID then false
  else match lookupLoc g.locations g.current_location_id with
       | some loc => "backup_usb" ∈ loc.items
       | none => false

/-- `AdventureGame.check_lose`. -/
def check_lose (g : AdventureGame) : Bool :=
  g.max_moves ≤ g.player.moves_made

/-- The state `AdventureGame.__init__` assigns, given the already-loaded
location and item records (the loader itself parses JSON and is out of
scope).  The player starts empty / 0 / 0 per `Player.__init__`. -/
def initGame (locations : List (Int × Location)) (items : List Item)
    (puzzle_code : String) (initial_location_id : Int) : AdventureGame :=
  { locations := locations, items := items,
    current_location_id := initial_location_id,
    ongoing := true,
    player := Player.init,
    max_moves := BASE_MAX_MOVES,
    state := { server_room_unlocked := false, coffee_consumed := false,
               puzzle_code := puzzle_code, game_stage := "start",
               items_collected := [], ritual_complete := false } }

/-- Count of parameters (besides `self`) declared by `Player.__init__` in
`game_entities.py`. -/
def playerInitParamCount : Nat := 0

/-- Count of positional arguments `AdventureGame.__init__` passes in the
call `Player([], 0, 0, False)` in `adventure.py`. -/
def adventureInitPlayerArgCount : Nat := 4

/-- Outcome of running `AdventureGame.__init__`: either a session, or the
Python `TypeError` raised when a call's arity does not match. -/
inductive ConstructResult where
  | ok (g : AdventureGame)
  | typeError (msg : String)
deriving DecidableEq, Repr

/-- `AdventureGame.__init__` on well-formed loader output: Python checks
the arity of the `Player(...)` call at run time and raises `TypeError`
when it does not match the declared parameter count. -/
def constructSession (locations : List (Int × Location)) (items : List Item)
    (puzzle_code : String) (initial_location_id : Int) : ConstructResult :=
  if adventureInitPlayerArgCount = playerInitParamCount then
    ConstructResult.ok (initGame locations items puzzle_code initial_location_id)
  else
    ConstructResult.typeError
      "Player.init takes 1 positional argument but 5 were given"

/-- `event_logger.Event`: one node of the doubly-linked event list.  The
`next`/`prev` object references become addresses into the list store
(allocation order); `none` is Python `None`. -/
structure Event where
  id_num : Int
  description : String
  next_command : Option String := none
  next : Option Nat := none
  prev : Option Nat := none
deriving DecidableEq, Repr

/-- `event_logger.EventList`: `store` holds every node ever allocated, in
allocation order, so an address is a stable index; `first`/`last` are the
two end pointers.  A node unlinked by `remove_last_event` simply becomes
unreachable, as in Python. -/
structure EventList where
  store : List Event := []
  first : Option Nat := none
  last : Option Nat := none
deriving DecidableEq, Repr

/-- `EventList.__init__`. -/
def EventList.empty : EventList := { store := [], first := none, last := none }

/-- `EventList.is_empty`: `self.first is None`. -/
def is_empty (l : EventList) : Bool := l.first.isNone

/-- `EventList.add_event`.  A fresh node is allocated for the passed event
(the caller never re-adds a node, per the stated precondition); its
`prev`/`next`/`next_command` fields are overwritten exactly as the Python
code does.  The `none` fallthrough branches are unreachable states in
which Python would raise `AttributeError`. -/
def add_event (l : EventList) (event : Event) (command : Option String := none) :
    EventList :=
  let addr := l.store.length
  if l.first.isNone then
    let node := { event with prev := none, next := none, next_command := none }
    { store := l.store ++ [node], first := some addr, last := some addr }
  else
    match l.last with
    | none => l
    | some lastAddr =>
      match l.store[lastAddr]? with
      | none => l
      | some lastNode =>
        let lastNode1 := { lastNode with next := some addr, next_command := command }
        let node := { event with prev := some lastAddr, next := none, next_command := none }
        { store := (l.store.set lastAddr lastNode1) ++ [node],
          first := l.first, last := some addr }

/-- `EventList.remove_last_event`.  Python compares `self.first ==
self.last` by dataclass value equality, which on a well-formed list holds
exactly when they are the same node (a longer chain makes the two ends
differ in their `next` field); here the two end addresses are compared.
The `none` fallthrough branches are unreachable states in which Python
would raise. -/
def remove_last_event (l : EventList) : EventList :=
  match l.first, l.last with
  | none, _ => l
  | some f, some la =>
    if f = la then { l with first := none, last := none }
    else
      match l.store[la]? with
      | none => l
      | some lastNode =>
        match lastNode.prev with
        | none => l
        | some newLast =>
          match l.store[newLast]? with
          | none => l
          | some newLastNode =>
            let newLastNode1 := { newLastNode with next := none, next_command := none }
            { l with store := l.store.set newLast newLastNode1, last := some newLast }
  | some _, none => l

/-- The `while curr is not None` traversal of `EventList.get_id_log`,
with fuel bounding the number of steps (the store size suffices on any
well-formed list, where the chain visits distinct nodes). -/
def idsFrom (store : List Event) : Nat → Option Nat → List Int
  | 0, _ => []
  | _, none => []
  | fuel + 1, some a =>
    match store[a]? with
    | none => []
    | some nd => nd.id_num :: idsFrom store fuel nd.next

/-- `EventList.get_id_log`. -/
def get_id_log (l : EventList) : List Int :=
  idsFrom l.store l.store.length l.first

/-- `AdventureGame.go_command`.  Returns the new game, the new log, and
the Python return value.  When the destination id resolves but is not a
key of `_locations`, Python raises `KeyError` inside `get_location` after
the location id and move counter were already updated; that state is
returned here (unreachable under the loader contract, where every integer
destination is a defined location). -/
def go_command (g : AdventureGame) (game_logs : EventList) (direction : String) :
    (AdventureGame × EventList) × Bool :=
  let command := "go " ++ direction
  match lookupLoc g.locations g.current_location_id with
  | none => ((g, game_logs), false)
  | some location_now =>
    match dictGet location_now.available_commands command with
    | some (Sum.inl result_id) =>
      let g1 := { g with current_location_id := result_id, player := g.player.increment_moves }
      match lookupLoc g1.locations result_id with
      | none => ((g1, game_logs), true)
      | some new_location =>
        let ev : Event := { id_num := new_location.id_num, description := new_location.long_description }
        let logs1 := add_event game_logs ev (some command)
        let g2 := { g1 with state := check_stage_update g1.state }
        ((g2, logs1), true)
    | _ => ((g, game_logs), false)

/-- One normalized command fed to the session, as the main loop dispatches
it.  `look`, `inventoryCmd`, `scoreCmd` and `readNote` only print. -/
inductive Cmd where
  | go (direction : String)
  | take (item_name : String)
  | drop (item_name : String)
  | examine (item_name : String)
  | look
  | inventoryCmd
  | scoreCmd
  | readNote
  | enterCode (code : String)
deriving DecidableEq, Repr

/-- Dispatch one command against the session and its event log. -/
def stepPair (s : AdventureGame × EventList) : Cmd → AdventureGame × EventList
  | Cmd.go d => (go_command s.1 s.2 d).1
  | Cmd.take nm => (take_command s.1 nm, s.2)
  | Cmd.drop nm => (drop_command s.1 nm, s.2)
  | Cmd.examine nm => (examine_command s.1 nm, s.2)
  | Cmd.look => s
  | Cmd.inventoryCmd => s
  | Cmd.scoreCmd => s
  | Cmd.readNote => s
  | Cmd.enterCode c => (enter_code_command s.1 c, s.2)

/-- Process a whole command sequence. -/
def runPair (s : AdventureGame × EventList) (cmds : List Cmd) :
    AdventureGame × EventList :=
  cmds.foldl stepPair s

/-- Whether a command is a movement command that succeeds in the given
state: `go <direction>` resolves in the current transition table to an
integer destination (exactly when `go_command` returns `True`). -/
def isSuccessfulMove (g : AdventureGame) : Cmd → Bool
  | Cmd.go d =>
    match lookupLoc g.locations g.current_location_id with
    | some loc =>
      match dictGet loc.available_commands ("go " ++ d) with
      | some (Sum.inl _) => true
      | _ => false
    | none => false
  | _ => false

/-- Number of successful movement commands along a run. -/
def succMoveCount (s : AdventureGame × EventList) : List Cmd → Nat
  | [] => 0
  | c :: cs => (if isSuccessfulMove s.1 c then 1 else 0) + succMoveCount (stepPair s c) cs

/-- Number of steps along a run at which the ritual-complete flag flips
from false to true. -/
def ritualFlipCount (s : AdventureGame × EventList) : List Cmd → Nat
  | [] => 0
  | c :: cs =>
    (if s.1.state.ritual_complete = false ∧
        (stepPair s c).1.state.ritual_complete = true then 1 else 0) +
      ritualFlipCount (stepPair s c) cs

/-- Modelled from the spec: the stage-transition table of section 4.4,
rows applied in order to the current stage given the collected set
(required-item set ∩ items ever collected) and the ritual flag.  Used
only to compare against the code-side `check_stage_update`. -/
def specStageTable (stage : String) (collected : List String)
    (ritualComplete : Bool) : String :=
  let s1 := if stage = "start" ∧ collected ≠ [] then "exploring" else stage
  let s2 := if s1 = "exploring" ∧ 2 ≤ collected.length then "gathering" else s1
  if collected.length = 3 ∧ ritualComplete = false then "ready_ritual" else s2

/-- The collected set the stage rule is evaluated over. -/
def collectedOf (st : GameState) : List String :=
  REQUIRED_ITEMS.filter (fun r => r ∈ st.items_collected)

-- ---------------------------------------------------------------------------
-- Move-counter lemmas (claim C2)
-- ---------------------------------------------------------------------------

theorem consume_coffee_moves (g : AdventureGame) :
    (consume_coffee g).player.moves_made = g.player.moves_made := by
  unfold consume_coffee
  split <;> simp [Player.remove_item]

theorem check_ritual_moves (g : AdventureGame) :
    (check_ritual g).player.moves_made = g.player.moves_made := by
  simp only [check_ritual]
  repeat' split
  all_goals simp [Player.add_score]

theorem take_command_moves (g : AdventureGame) (nm : String) :
    (take_command g nm).player.moves_made = g.player.moves_made := by
  simp only [take_command]
  repeat' split
  all_goals simp [consume_coffee_moves, Player.add_item, Player.add_score]

theorem drop_command_moves (g : AdventureGame) (nm : String) :
    (drop_command g nm).player.moves_made = g.player.moves_made := by
  simp only [drop_command]
  repeat' split
  all_goals simp [check_ritual_moves, Player.add_score, Player.remove_item]

theorem enter_code_command_moves (g : AdventureGame) (code : String) :
    (enter_code_command g code).player.moves_made = g.player.moves_made := by
  simp only [enter_code_command]
  repeat' split
  all_goals simp [Player.add_score]

theorem go_command_moves (g : AdventureGame) (logs : EventList) (d : String) :
    ((go_command g logs d).1.1).player.moves_made
      = g.player.moves_made + (if isSuccessfulMove g (Cmd.go d) then 1 else 0) := by
  simp only [go_command, isSuccessfulMove]
  repeat' split
  all_goals simp_all [Player.increment_moves]

theorem go_command_failed (g : AdventureGame) (logs : EventList) (d : String) :
    isSuccessfulMove g (Cmd.go d) = false → (go_command g logs d).1 = (g, logs) := by
  simp only [go_command, isSuccessfulMove]
  intro h
  repeat' split
  all_goals simp_all

/-- Whether a command is a movement (`go`) command at all. -/
def isGoCmd : Cmd → Bool
  | Cmd.go _ => true
  | _ => false

theorem stepPair_moves (s : AdventureGame × EventList) (c : Cmd) :
    (stepPair s c).1.player.moves_made
      = s.1.player.moves_made + (if isSuccessfulMove s.1 c then 1 else 0) := by
  cases c <;>
    simp [stepPair, isSuccessfulMove, go_command_moves, take_command_moves,
      drop_command_moves, enter_code_command_moves, examine_command]

theorem stepPair_moves_nonGo (s : AdventureGame × EventList) (c : Cmd)
    (h : isGoCmd c = false) :
    (stepPair s c).1.player.moves_made = s.1.player.moves_made := by
  have := stepPair_moves s c
  cases c <;> simp_all [isGoCmd, isSuccessfulMove]

theorem runPair_moves (cmds : List Cmd) (s : AdventureGame × EventList) :
    (runPair s cmds).1.player.moves_made
      = s.1.player.moves_made + succMoveCount s cmds := by
  induction cmds generalizing s with
  | nil => simp [runPair, succMoveCount]
  | cons c cs ih =>
    have h1 : runPair s (c :: cs) = runPair (stepPair s c) cs := by
      simp [runPair]
    rw [h1, ih (stepPair s c), stepPair_moves, succMoveCount]
    omega

/-- C2.  Processing any command sequence from a fresh session leaves
`moves_made` equal to the number of successful movement commands in the
sequence; a failed movement command is a strict no-op on the whole state
(in particular it changes neither the counter nor the location), and a
non-movement command never changes the move counter. -/
theorem c2_move_counting :
    (∀ (locations : List (Int × Location)) (items : List Item)
        (puzzle_code : String) (initial_location_id : Int) (cmds : List Cmd),
      (runPair (initGame locations items puzzle_code initial_location_id,
          EventList.empty) cmds).1.player.moves_made
        = succMoveCount
            (initGame locations items puzzle_code initial_location_id,
              EventList.empty) cmds)
    ∧ (∀ (s : AdventureGame × EventList) (d : String),
        isSuccessfulMove s.1 (Cmd.go d) = false → stepPair s (Cmd.go d) = s)
    ∧ (∀ (s : AdventureGame × EventList) (c : Cmd), isGoCmd c = false →
        (stepPair s c).1.player.moves_made = s.1.player.moves_made) := by
  refine ⟨?_, ?_, ?_⟩
  · intro locations items puzzle_code initial_location_id cmds
    rw [runPair_moves]
    simp [initGame, Player.init]
  · intro s d h
    have h2 := go_command_failed s.1 s.2 d h
    simp [stepPair, h2]
  · intro s c h
    exact stepPair_moves_nonGo s c h

-- ---------------------------------------------------------------------------
-- A small concrete world used to instantiate theorems with hypotheses
-- ---------------------------------------------------------------------------

def wUsb : Item := mkItem "USB Drive" "the blue guardian" 0 0 20 10

def wCoffee : Item := mkItem "coffee" "a double-double" 1 1 0 0

def wToonie : Item := mkItem "toonie" "a two-dollar coin" 1 3 5 2

def wLoc0 : Location :=
  { id_num := 0, brief_description := "dorm", long_description := "the dorm room",
    available_commands := [("go east", Sum.inl 1)], items := ["USB Drive"] }

def wLoc1 : Location :=
  { id_num := 1, brief_description := "street", long_description := "the street",
    available_commands := [("go west", Sum.inl 0)], items := ["coffee", "toonie"] }

def wGame : AdventureGame :=
  initGame [(0, wLoc0), (1, wLoc1)] [wUsb, wCoffee, wToonie] "1827" 0

theorem c2_move_counting_witness :
    isSuccessfulMove wGame (Cmd.go "north") = false
    ∧ stepPair (wGame, EventList.empty) (Cmd.go "north") = (wGame, EventList.empty)
    ∧ isGoCmd (Cmd.take "coffee") = false
    ∧ (stepPair (wGame, EventList.empty) (Cmd.take "coffee")).1.player.moves_made
        = (wGame, EventList.empty).1.player.moves_made
    ∧ (runPair (initGame [(0, wLoc0), (1, wLoc1)] [wUsb, wCoffee, wToonie] "1827" 0,
          EventList.empty) [Cmd.go "east", Cmd.go "north"]).1.player.moves_made
        = succMoveCount (initGame [(0, wLoc0), (1, wLoc1)] [wUsb, wCoffee, wToonie]
            "1827" 0, EventList.empty) [Cmd.go "east", Cmd.go "north"] :=
  ⟨by decide,
   c2_move_counting.2.1 (wGame, EventList.empty) "north" (by decide),
   by decide,
   c2_move_counting.2.2 (wGame, EventList.empty) (Cmd.take "coffee") (by decide),
   c2_move_counting.1 [(0, wLoc0), (1, wLoc1)] [wUsb, wCoffee, wToonie] "1827" 0
     [Cmd.go "east", Cmd.go "north"]⟩

-- ---------------------------------------------------------------------------
-- Claim C1: session construction
-- ---------------------------------------------------------------------------

/-- C1 is a code bug: `AdventureGame.__init__` invokes `Player([], 0, 0,
False)` although `Player.__init__` declares no parameters besides `self`,
so Python raises `TypeError` on every construction, even from perfectly
well-formed loader data — construction never succeeds, contradicting the
claim (and the doctests of `adventure.py` itself). -/
theorem c1_construction_always_raises :
    ∀ (locations : List (Int × Location)) (items : List Item)
      (puzzle_code : String) (initial_location_id : Int),
      constructSession locations items puzzle_code initial_location_id
        = ConstructResult.typeError
            "Player.init takes 1 positional argument but 5 were given" := by
  intro locations items puzzle_code initial_location_id
  rfl

-- ---------------------------------------------------------------------------
-- Claim C3: when the stage-advance rule is evaluated
-- ---------------------------------------------------------------------------

theorem check_stage_update_eq (st : GameState) :
    check_stage_update st
      = { st with game_stage :=
            specStageTable st.game_stage (collectedOf st) st.ritual_complete } := by
  simp only [check_stage_update, specStageTable, collectedOf]
  repeat' split
  all_goals simp_all

theorem consume_coffee_stage (g : AdventureGame) :
    (consume_coffee g).state.game_stage = g.state.game_stage := by
  unfold consume_coffee
  split <;> simp [Player.remove_item]

theorem take_command_stage (g : AdventureGame) (nm : String) :
    (take_command g nm).state.game_stage = g.state.game_stage := by
  simp only [take_command]
  repeat' split
  all_goals simp [consume_coffee_stage, Player.add_item, Player.add_score]

/-- C3 counterexample: from a fresh session whose current location holds
the required item "USB Drive", taking it is a successful pickup of a
required item, yet the stage afterwards is still "start" while the
transition table over the new collected set yields "exploring" — the
stage rule is NOT re-evaluated by item pickups. -/
theorem c3_counterexample :
    (take_command wGame "USB Drive").state.game_stage
      ≠ specStageTable wGame.state.game_stage
          (collectedOf (take_command wGame "USB Drive").state)
          wGame.state.ritual_complete := by
  decide

/-- C3 (amended).  The stage-advance rule is re-evaluated after every
successful move (one that resolves to an existing destination location):
the stage then equals the transition table applied to the pre-move stage,
collected set and ritual flag.  An item pickup does not re-evaluate the
rule: `take_command` always leaves the stage unchanged. -/
theorem c3_stage_reeval_on_moves :
    (∀ (g : AdventureGame) (logs : EventList) (d : String)
        (loc newLoc : Location) (dest : Int),
      lookupLoc g.locations g.current_location_id = some loc →
      dictGet loc.available_commands ("go " ++ d) = some (Sum.inl dest) →
      lookupLoc g.locations dest = some newLoc →
      ((go_command g logs d).1.1).state.game_stage
        = specStageTable g.state.game_stage (collectedOf g.state)
            g.state.ritual_complete)
    ∧ (∀ (g : AdventureGame) (nm : String),
        (take_command g nm).state.game_stage = g.state.game_stage) := by
  constructor
  · intro g logs d loc newLoc dest h1 h2 h3
    simp only [go_command, h1, h2, h3]
    have h4 := check_stage_update_eq g.state
    simp [h4]
  · exact take_command_stage

theorem c3_stage_reeval_on_moves_witness :
    ((go_command wGame EventList.empty "east").1.1).state.game_stage
      = specStageTable wGame.state.game_stage (collectedOf wGame.state)
          wGame.state.ritual_complete
    ∧ (take_command wGame "USB Drive").state.game_stage
        = wGame.state.game_stage :=
  ⟨c3_stage_reeval_on_moves.1 wGame EventList.empty "east" wLoc0 wLoc1 1
     (by decide) (by decide) (by decide),
   c3_stage_reeval_on_moves.2 wGame "USB Drive"⟩

-- ---------------------------------------------------------------------------
-- Score lemmas (claims C9, C10)
-- ---------------------------------------------------------------------------

/-- The loader contract and the `Item` representation invariant require
non-negative pickup points for every registry item. -/
def ItemsNonneg (g : AdventureGame) : Prop :=
  ∀ it ∈ g.items, 0 ≤ it.pickup_points

instance (g : AdventureGame) : Decidable (ItemsNonneg g) := by
  unfold ItemsNonneg
  infer_instance

theorem consume_coffee_score (g : AdventureGame) :
    (consume_coffee g).player.score = g.player.score := by
  unfold consume_coffee
  split <;> simp [Player.remove_item]

theorem check_ritual_score_ge (g : AdventureGame) :
    g.player.score ≤ (check_ritual g).player.score := by
  simp only [check_ritual]
  repeat' split
  all_goals simp [Player.add_score]

theorem take_command_score_cases (g : AdventureGame) (nm : String) :
    (take_command g nm).player.score = g.player.score
    ∨ ∃ it, get_item g nm = some it
        ∧ (take_command g nm).player.score = g.player.score + it.pickup_points := by
  simp only [take_command]
  repeat' split
  all_goals
    simp_all [consume_coffee_score, Player.add_item, Player.add_score]

theorem drop_command_score_ge (g : AdventureGame) (nm : String) :
    g.player.score ≤ (drop_command g nm).player.score := by
  simp only [drop_command]
  repeat' split
  all_goals try (refine le_trans ?_ (check_ritual_score_ge _))
  all_goals simp_all [Player.remove_item, Player.add_score]
  all_goals omega

theorem enter_code_command_score_ge (g : AdventureGame) (code : String) :
    g.player.score ≤ (enter_code_command g code).player.score := by
  simp only [enter_code_command]
  repeat' split
  all_goals simp [Player.add_score]

theorem go_command_score (g : AdventureGame) (logs : EventList) (d : String) :
    ((go_command g logs d).1.1).player.score = g.player.score := by
  simp only [go_command]
  repeat' split
  all_goals simp [Player.increment_moves]

theorem setItemPos_nonneg (items : List Item) (nm : String) (pos : Int) :
    (∀ it ∈ items, 0 ≤ it.pickup_points) →
    ∀ it ∈ setItemPos items nm pos, 0 ≤ it.pickup_points := by
  induction items with
  | nil => intro h; simp [setItemPos]
  | cons a as ih =>
    intro h it hit
    simp only [setItemPos] at hit
    split at hit
    · rcases List.mem_cons.mp hit with h1 | h1
      · subst h1
        simpa using h a (List.mem_cons_self a as)
      · exact h it (List.mem_cons_of_mem _ h1)
    · rcases List.mem_cons.mp hit with h1 | h1
      · exact h it (List.mem_cons.mpr (Or.inl h1))
      · exact ih (fun x hx => h x (List.mem_cons_of_mem _ hx)) it h1

theorem consume_coffee_items (g : AdventureGame) :
    (consume_coffee g).items = g.items := by
  unfold consume_coffee
  split <;> simp

theorem take_command_nonneg (g : AdventureGame) (nm : String)
    (h : ItemsNonneg g) : ItemsNonneg (take_command g nm) := by
  simp only [take_command]
  repeat' split
  all_goals
    simp_all [ItemsNonneg, consume_coffee_items]
  all_goals
    intro it hit
  all_goals
    exact setItemPos_nonneg _ _ _ h it hit

theorem check_ritual_nonneg (g : AdventureGame) (h : ItemsNonneg g) :
    ItemsNonneg (check_ritual g) := by
  simp only [check_ritual]
  repeat' split
  all_goals
    simp_all [ItemsNonneg]
  intro it hit
  exact setItemPos_nonneg _ _ _ h it hit

theorem drop_command_nonneg (g : AdventureGame) (nm : String)
    (h : ItemsNonneg g) : ItemsNonneg (drop_command g nm) := by
  simp only [drop_command]
  repeat' split
  all_goals
    first
    | exact h
    | (apply check_ritual_nonneg; simp_all [ItemsNonneg];
       intro it hit; exact setItemPos_nonneg _ _ _ h it hit)
    | (simp_all [ItemsNonneg]; intro it hit;
       exact setItemPos_nonneg _ _ _ h it hit)

theorem enter_code_command_nonneg (g : AdventureGame) (code : String)
    (h : ItemsNonneg g) : ItemsNonneg (enter_code_command g code) := by
  simp only [enter_code_command]
  repeat' split
  all_goals simp_all [ItemsNonneg]

theorem go_command_items (g : AdventureGame) (logs : EventList) (d : String) :
    ((go_command g logs d).1.1).items = g.items := by
  simp only [go_command]
  repeat' split
  all_goals simp

theorem get_item_mem (g : AdventureGame) (nm : String) (it : Item)
    (h : get_item g nm = some it) : it ∈ g.items :=
  List.mem_of_find?_eq_some (by simpa [get_item] using h)

theorem stepPair_score_ge (s : AdventureGame × EventList) (c : Cmd)
    (h : ItemsNonneg s.1) :
    s.1.player.score ≤ (stepPair s c).1.player.score := by
  cases c with
  | go d => simp [stepPair, go_command_score]
  | take nm =>
    simp only [stepPair]
    rcases take_command_score_cases s.1 nm with hc | ⟨it, hit, hc⟩
    · simp [hc]
    · have hp : 0 ≤ it.pickup_points := h it (get_item_mem s.1 nm it hit)
      simp only [hc]
      omega
  | drop nm => simpa [stepPair] using drop_command_score_ge s.1 nm
  | examine nm => simp [stepPair, examine_command]
  | look => simp [stepPair]
  | inventoryCmd => simp [stepPair]
  | scoreCmd => simp [stepPair]
  | readNote => simp [stepPair]
  | enterCode code => simpa [stepPair] using enter_code_command_score_ge s.1 code

theorem stepPair_nonneg (s : AdventureGame × EventList) (c : Cmd)
    (h : ItemsNonneg s.1) : ItemsNonneg (stepPair s c).1 := by
  cases c with
  | go d =>
    simp only [stepPair]
    unfold ItemsNonneg
    intro it hit
    rw [go_command_items] at hit
    exact h it hit
  | take nm => exact take_command_nonneg _ _ h
  | drop nm => exact drop_command_nonneg _ _ h
  | examine nm => exact h
  | look => exact h
  | inventoryCmd => exact h
  | scoreCmd => exact h
  | readNote => exact h
  | enterCode code => exact enter_code_command_nonneg _ _ h

theorem runPair_score_ge (cmds : List Cmd) (s : AdventureGame × EventList)
    (h : ItemsNonneg s.1) :
    s.1.player.score ≤ (runPair s cmds).1.player.score := by
  induction cmds generalizing s with
  | nil => simp [runPair]
  | cons c cs ih =>
    have h1 : runPair s (c :: cs) = runPair (stepPair s c) cs := by
      simp [runPair]
    rw [h1]
    calc s.1.player.score ≤ (stepPair s c).1.player.score := stepPair_score_ge s c h
    _ ≤ _ := ih (stepPair s c) (stepPair_nonneg s c h)

/-- C9.  With the loader-guaranteed non-negative pickup points, every
single operation leaves the score greater than or equal to what it was,
non-negativity of the registry is preserved, and hence the score is
non-decreasing across every command sequence. -/
theorem c9_score_monotone :
    (∀ (s : AdventureGame × EventList) (c : Cmd), ItemsNonneg s.1 →
      s.1.player.score ≤ (stepPair s c).1.player.score
        ∧ ItemsNonneg (stepPair s c).1)
    ∧ (∀ (s : AdventureGame × EventList) (cmds : List Cmd), ItemsNonneg s.1 →
      s.1.player.score ≤ (runPair s cmds).1.player.score) := by
  refine ⟨fun s c h => ⟨stepPair_score_ge s c h, stepPair_nonneg s c h⟩, ?_⟩
  intro s cmds h
  exact runPair_score_ge cmds s h

theorem c9_score_monotone_witness :
    (wGame, EventList.empty).1.player.score
      ≤ (stepPair (wGame, EventList.empty) (Cmd.take "USB Drive")).1.player.score
    ∧ (wGame, EventList.empty).1.player.score
        ≤ (runPair (wGame, EventList.empty)
            [Cmd.go "east", Cmd.take "coffee", Cmd.drop "coffee"]).1.player.score :=
  ⟨(c9_score_monotone.1 (wGame, EventList.empty) (Cmd.take "USB Drive")
      (by decide)).1,
   c9_score_monotone.2 (wGame, EventList.empty)
     [Cmd.go "east", Cmd.take "coffee", Cmd.drop "coffee"] (by decide)⟩

-- ---------------------------------------------------------------------------
-- Move-limit lemmas (claim C6)
-- ---------------------------------------------------------------------------

/-- Coupling between the move limit and the one-shot coffee flag: the
limit is the base plus the bonus exactly when the coffee was consumed. -/
def maxInv (g : AdventureGame) : Prop :=
  g.max_moves
    = BASE_MAX_MOVES + (if g.state.coffee_consumed then COFFEE_BONUS_MOVES else 0)

theorem consume_coffee_max_inv (g : AdventureGame) (h : maxInv g) :
    maxInv (consume_coffee g) := by
  unfold maxInv at h ⊢
  unfold consume_coffee
  split <;> simp_all [Player.remove_item]

theorem consume_coffee_max_mono (g : AdventureGame) :
    g.max_moves ≤ (consume_coffee g).max_moves := by
  unfold consume_coffee
  split <;> simp [Player.remove_item]

theorem check_ritual_max (g : AdventureGame) :
    (check_ritual g).max_moves = g.max_moves
    ∧ (check_ritual g).state.coffee_consumed = g.state.coffee_consumed := by
  simp only [check_ritual]
  repeat' split
  all_goals simp [Player.add_score]

theorem drop_command_max (g : AdventureGame) (nm : String) :
    (drop_command g nm).max_moves = g.max_moves
    ∧ (drop_command g nm).state.coffee_consumed = g.state.coffee_consumed := by
  simp only [drop_command]
  repeat' split
  all_goals simp [check_ritual_max, Player.add_score, Player.remove_item]

theorem enter_code_command_max (g : AdventureGame) (code : String) :
    (enter_code_command g code).max_moves = g.max_moves
    ∧ (enter_code_command g code).state.coffee_consumed
        = g.state.coffee_consumed := by
  simp only [enter_code_command]
  repeat' split
  all_goals simp [Player.add_score]

theorem check_stage_update_coffee (st : GameState) :
    (check_stage_update st).coffee_consumed = st.coffee_consumed := by
  rw [check_stage_update_eq]

theorem go_command_max (g : AdventureGame) (logs : EventList) (d : String) :
    ((go_command g logs d).1.1).max_moves = g.max_moves
    ∧ ((go_command g logs d).1.1).state.coffee_consumed
        = g.state.coffee_consumed := by
  simp only [go_command]
  repeat' split
  all_goals simp [check_stage_update_coffee]

theorem take_command_max_inv (g : AdventureGame) (nm : String) (h : maxInv g) :
    maxInv (take_command g nm) := by
  simp only [take_command]
  repeat' split
  all_goals first
  | exact h
  | (apply consume_coffee_max_inv; unfold maxInv at h ⊢; simpa using h)

theorem take_command_max_mono (g : AdventureGame) (nm : String) :
    g.max_moves ≤ (take_command g nm).max_moves := by
  simp only [take_command]
  repeat' split
  all_goals first
  | exact le_refl _
  | (refine le_trans ?_ (consume_coffee_max_mono _); simp)

theorem stepPair_max_inv (s : AdventureGame × EventList) (c : Cmd)
    (h : maxInv s.1) : maxInv (stepPair s c).1 := by
  cases c with
  | go d =>
    unfold maxInv at h ⊢
    simp only [stepPair]
    simp only [(go_command_max s.1 s.2 d).1, (go_command_max s.1 s.2 d).2]
    exact h
  | take nm => exact take_command_max_inv _ _ h
  | drop nm =>
    unfold maxInv at h ⊢
    simp only [stepPair]
    simp only [(drop_command_max s.1 nm).1, (drop_command_max s.1 nm).2]
    exact h
  | examine nm => exact h
  | look => exact h
  | inventoryCmd => exact h
  | scoreCmd => exact h
  | readNote => exact h
  | enterCode code =>
    unfold maxInv at h ⊢
    simp only [stepPair]
    simp only [(enter_code_command_max s.1 code).1,
      (enter_code_command_max s.1 code).2]
    exact h

theorem stepPair_max_mono (s : AdventureGame × EventList) (c : Cmd) :
    s.1.max_moves ≤ (stepPair s c).1.max_moves := by
  cases c with
  | go d => simp [stepPair, (go_command_max s.1 s.2 d).1]
  | take nm => exact take_command_max_mono _ _
  | drop nm => simp [stepPair, (drop_command_max s.1 nm).1]
  | examine nm => simp [stepPair, examine_command]
  | look => simp [stepPair]
  | inventoryCmd => simp [stepPair]
  | scoreCmd => simp [stepPair]
  | readNote => simp [stepPair]
  | enterCode code => simp [stepPair, (enter_code_command_max s.1 code).1]

theorem runPair_max_inv (cmds : List Cmd) (s : AdventureGame × EventList)
    (h : maxInv s.1) : maxInv (runPair s cmds).1 := by
  induction cmds generalizing s with
  | nil => simpa [runPair] using h
  | cons c cs ih =>
    have h1 : runPair s (c :: cs) = runPair (stepPair s c) cs := by
      simp [runPair]
    rw [h1]
    exact ih (stepPair s c) (stepPair_max_inv s c h)

theorem maxInv_le (g : AdventureGame) (h : maxInv g) :
    g.max_moves ≤ BASE_MAX_MOVES + COFFEE_BONUS_MOVES := by
  unfold maxInv at h
  split at h <;> omega

theorem has_item_false_forall (p : Player) (nm : String)
    (h : p.has_item nm = false) :
    ∀ it ∈ p.inventory, ¬ lowerStr it.name = lowerStr nm := by
  simpa [Player.has_item, List.any_eq_false] using h

theorem removeFirstItem_append_match (l : List Item) (nm : String) (x : Item)
    (h : ∀ it ∈ l, ¬ lowerStr it.name = lowerStr nm)
    (hx : lowerStr x.name = lowerStr nm) :
    removeFirstItem (l ++ [x]) nm = (some x, l) := by
  induction l with
  | nil => simp [removeFirstItem, hx]
  | cons a as ih =>
    have ha := h a (List.mem_cons_self a as)
    simp only [List.cons_append, removeFirstItem, if_neg ha]
    simp [ih (fun it hit => h it (List.mem_cons_of_mem _ hit))]

theorem take_coffee_first (g : AdventureGame) (nm : String) (loc : Location)
    (it : Item) (matched : String)
    (h1 : lookupLoc g.locations g.current_location_id = some loc)
    (h2 : get_item g nm = some it)
    (h3 : loc.items.find? (fun n => lowerStr n = lowerStr nm) = some matched)
    (h4 : lowerStr it.name = "coffee")
    (h5 : g.state.coffee_consumed = false)
    (h6 : g.player.has_item "coffee" = false) :
    (take_command g nm).max_moves = g.max_moves + COFFEE_BONUS_MOVES
    ∧ (take_command g nm).state.coffee_consumed = true
    ∧ (take_command g nm).player.has_item "coffee" = false := by
  have hforall := has_item_false_forall g.player "coffee" h6
  have hlow : lowerStr "coffee" = "coffee" := by decide
  have hremove : removeFirstItem
      (g.player.inventory ++ [{ it with current_position := (-1 : Int) }])
      "coffee"
      = (some { it with current_position := (-1 : Int) }, g.player.inventory) := by
    apply removeFirstItem_append_match
    · intro x hx
      rw [hlow]
      exact hforall x hx
    · simpa [hlow] using h4
  simp only [take_command, h1, h2, h3, h4, if_true]
  simp only [consume_coffee, Player.add_item, Player.add_score, h5,
    Bool.false_eq_true, if_false, Player.remove_item, hremove]
  refine ⟨?_, ?_, ?_⟩ <;> first | rfl | trivial

theorem take_after_coffee_consumed (g : AdventureGame) (nm : String)
    (h : g.state.coffee_consumed = true) :
    (take_command g nm).max_moves = g.max_moves := by
  simp only [take_command]
  repeat' split
  all_goals simp_all [consume_coffee]

/-- C6.  The move limit starts at the base value, never decreases, and is
bounded by base + bonus across every command sequence from a fresh
session (so the coffee bonus is applied at most once).  The first
successful pickup of the coffee raises the limit by exactly the bonus,
sets the one-shot flag, and leaves the coffee out of the inventory; any
pickup after the flag is set leaves the limit unchanged. -/
theorem c6_move_limit :
    (∀ (locations : List (Int × Location)) (items : List Item)
        (puzzle_code : String) (initial_location_id : Int),
      (initGame locations items puzzle_code initial_location_id).max_moves
        = BASE_MAX_MOVES)
    ∧ (∀ (s : AdventureGame × EventList) (c : Cmd),
        s.1.max_moves ≤ (stepPair s c).1.max_moves)
    ∧ (∀ (locations : List (Int × Location)) (items : List Item)
        (puzzle_code : String) (initial_location_id : Int) (cmds : List Cmd),
      (runPair (initGame locations items puzzle_code initial_location_id,
          EventList.empty) cmds).1.max_moves
        ≤ BASE_MAX_MOVES + COFFEE_BONUS_MOVES)
    ∧ (∀ (g : AdventureGame) (nm : String) (loc : Location) (it : Item)
        (matched : String),
      lookupLoc g.locations g.current_location_id = some loc →
      get_item g nm = some it →
      loc.items.find? (fun n => lowerStr n = lowerStr nm) = some matched →
      lowerStr it.name = "coffee" →
      g.state.coffee_consumed = false →
      g.player.has_item "coffee" = false →
      (take_command g nm).max_moves = g.max_moves + COFFEE_BONUS_MOVES
        ∧ (take_command g nm).state.coffee_consumed = true
        ∧ (take_command g nm).player.has_item "coffee" = false)
    ∧ (∀ (g : AdventureGame) (nm : String), g.state.coffee_consumed = true →
        (take_command g nm).max_moves = g.max_moves) := by
  refine ⟨?_, stepPair_max_mono, ?_, take_coffee_first, take_after_coffee_consumed⟩
  · intro locations items puzzle_code initial_location_id
    rfl
  · intro locations items puzzle_code initial_location_id cmds
    apply maxInv_le
    apply runPair_max_inv
    unfold maxInv initGame
    simp

def wGameCoffee : AdventureGame :=
  initGame [(0, wLoc0), (1, wLoc1)] [wUsb, wCoffee, wToonie] "1827" 1

theorem c6_move_limit_witness :
    (take_command wGameCoffee "coffee").max_moves
        = wGameCoffee.max_moves + COFFEE_BONUS_MOVES
    ∧ (take_command wGameCoffee "coffee").state.coffee_consumed = true
    ∧ (take_command wGameCoffee "coffee").player.has_item "coffee" = false
    ∧ (take_command (take_command wGameCoffee "coffee") "coffee").max_moves
        = (take_command wGameCoffee "coffee").max_moves
    ∧ (runPair (initGame [(0, wLoc0), (1, wLoc1)] [wUsb, wCoffee, wToonie]
          "1827" 1, EventList.empty) [Cmd.take "coffee"]).1.max_moves
        ≤ BASE_MAX_MOVES + COFFEE_BONUS_MOVES := by
  have hfirst := c6_move_limit.2.2.2.1 wGameCoffee "coffee" wLoc1 wCoffee "coffee"
    (by decide) (by decide) (by decide) (by decide) (by decide) (by decide)
  refine ⟨hfirst.1, hfirst.2.1, hfirst.2.2, ?_, ?_⟩
  · exact c6_move_limit.2.2.2.2 (take_command wGameCoffee "coffee") "coffee"
      (by decide)
  · exact c6_move_limit.2.2.1 [(0, wLoc0), (1, wLoc1)] [wUsb, wCoffee, wToonie]
      "1827" 1 [Cmd.take "coffee"]

-- ---------------------------------------------------------------------------
-- Ritual-flag lemmas (claims C5, C4)
-- ---------------------------------------------------------------------------

theorem lookupLoc_setLoc_self (l : List (Int × Location)) (k : Int)
    (v0 v : Location) (h : lookupLoc l k = some v0) :
    lookupLoc (setLoc l k v) k = some v := by
  induction l with
  | nil => simp [lookupLoc] at h
  | cons a as ih =>
    rcases a with ⟨k1, v1⟩
    by_cases hk : k1 = k
    · simp [lookupLoc, setLoc, hk]
    · simp only [lookupLoc, setLoc, if_neg hk] at h ⊢
      exact ih h

theorem check_ritual_already (g : AdventureGame)
    (h : g.state.ritual_complete = true) : check_ritual g = g := by
  unfold check_ritual
  split
  · rfl
  · rw [if_pos h]

theorem check_ritual_not_all (g : AdventureGame) (loc : Location)
    (hloc : lookupLoc g.locations g.current_location_id = some loc)
    (h : RITUAL_ITEMS.all (fun r => decide (r ∈ loc.items)) = false) :
    check_ritual g = g := by
  unfold check_ritual
  simp only [hloc]
  by_cases hf : g.state.ritual_complete = true
  · rw [if_pos hf]
  · rw [if_neg hf, if_pos (by simp [h])]

theorem check_ritual_flag (g : AdventureGame) :
    (check_ritual g).state.ritual_complete = g.state.ritual_complete
    ∨ (g.state.ritual_complete = false
        ∧ (check_ritual g).state.ritual_complete = true
        ∧ ∃ loc, lookupLoc g.locations g.current_location_id = some loc
            ∧ ∀ r ∈ RITUAL_ITEMS, r ∈ loc.items) := by
  simp only [check_ritual]
  repeat' split
  all_goals simp_all

theorem consume_coffee_ritual (g : AdventureGame) :
    (consume_coffee g).state.ritual_complete = g.state.ritual_complete := by
  unfold consume_coffee
  split <;> simp [Player.remove_item]

theorem take_command_ritual (g : AdventureGame) (nm : String) :
    (take_command g nm).state.ritual_complete = g.state.ritual_complete := by
  simp only [take_command]
  repeat' split
  all_goals simp [consume_coffee_ritual, Player.add_item, Player.add_score]

theorem check_stage_update_ritual (st : GameState) :
    (check_stage_update st).ritual_complete = st.ritual_complete := by
  rw [check_stage_update_eq]

theorem go_command_ritual (g : AdventureGame) (logs : EventList) (d : String) :
    ((go_command g logs d).1.1).state.ritual_complete
      = g.state.ritual_complete := by
  simp only [go_command]
  repeat' split
  all_goals simp [check_stage_update_ritual]

theorem enter_code_command_ritual (g : AdventureGame) (code : String) :
    (enter_code_command g code).state.ritual_complete
      = g.state.ritual_complete := by
  simp only [enter_code_command]
  repeat' split
  all_goals simp [Player.add_score]

theorem drop_ritual_mono (g : AdventureGame) (nm : String)
    (h : g.state.ritual_complete = true) :
    (drop_command g nm).state.ritual_complete = true := by
  simp only [drop_command, Player.remove_item]
  repeat' split
  all_goals simp_all [check_ritual_already]

theorem flag_from_check (g2 : AdventureGame)
    (hfl : g2.state.ritual_complete = false)
    (h : (check_ritual g2).state.ritual_complete = true) :
    ∃ loc2, lookupLoc g2.locations g2.current_location_id = some loc2
      ∧ ∀ r ∈ RITUAL_ITEMS, r ∈ loc2.items := by
  rcases check_ritual_flag g2 with hc | ⟨_, _, loc2, hlk, hall⟩
  · rw [hc, hfl] at h
    simp at h
  · exact ⟨loc2, hlk, hall⟩

theorem drop_flip_core (g : AdventureGame) (itemm : Item)
    (locationn : Location) (p : Player)
    (hfalse : g.state.ritual_complete = false)
    (hloc : lookupLoc g.locations g.current_location_id = some locationn)
    (hflip : (check_ritual
        { locations := setLoc g.locations g.current_location_id
            ({ locationn with items := locationn.items ++ [itemm.name] }),
          items := setItemPos g.items itemm.name g.current_location_id,
          current_location_id := g.current_location_id,
          ongoing := g.ongoing, player := p, max_moves := g.max_moves,
          state := g.state }).state.ritual_complete = true) :
    ∀ r ∈ RITUAL_ITEMS, r ∈ locationn.items ++ [itemm.name] := by
  obtain ⟨loc2, hlk, hall⟩ := flag_from_check _ (by simpa using hfalse) hflip
  have hlk2 : lookupLoc (setLoc g.locations g.current_location_id
      ({ locationn with items := locationn.items ++ [itemm.name] }))
      g.current_location_id
      = some ({ locationn with items := locationn.items ++ [itemm.name] }) :=
    lookupLoc_setLoc_self _ _ _ _ hloc
  have h6 : some ({ locationn with items := locationn.items ++ [itemm.name] })
      = some loc2 := hlk2.symm.trans hlk
  obtain rfl := Option.some.inj h6
  intro r hrr
  simpa using hall r hrr

theorem drop_ritual_flip (g : AdventureGame) (nm : String)
    (hfalse : g.state.ritual_complete = false)
    (hflip : (drop_command g nm).state.ritual_complete = true) :
    ∃ it loc, (removeFirstItem g.player.inventory nm).1 = some it
      ∧ g.current_location_id = RITUAL_LOCATION_ID
      ∧ lookupLoc g.locations RITUAL_LOCATION_ID = some loc
      ∧ ∀ r ∈ RITUAL_ITEMS, r ∈ loc.items ++ [it.name] := by
  simp only [drop_command, Player.remove_item] at hflip
  split at hflip
  · simp [hfalse] at hflip
  · rename_i itemm heq
    split at hflip
    · simp [hfalse] at hflip
    · rename_i locationn hloc
      repeat' split at hflip
      all_goals try (solve | (refine absurd hflip ?_; simp [hfalse]))
      all_goals rename_i hRIT
      all_goals refine ⟨itemm, locationn, heq, ?_, ?_, ?_⟩
      all_goals first
        | exact (by simpa using hRIT : g.current_location_id = RITUAL_LOCATION_ID)
        | exact ((by simpa using hRIT :
            g.current_location_id = RITUAL_LOCATION_ID) ▸ hloc)
        | exact drop_flip_core g itemm locationn _ hfalse hloc hflip

theorem stepPair_ritual_mono (s : AdventureGame × EventList) (c : Cmd)
    (h : s.1.state.ritual_complete = true) :
    (stepPair s c).1.state.ritual_complete = true := by
  cases c with
  | go d => rw [stepPair, go_command_ritual]; exact h
  | take nm => rw [stepPair, take_command_ritual]; exact h
  | drop nm => exact drop_ritual_mono s.1 nm h
  | examine nm => exact h
  | look => exact h
  | inventoryCmd => exact h
  | scoreCmd => exact h
  | readNote => exact h
  | enterCode code => rw [stepPair, enter_code_command_ritual]; exact h

theorem runPair_ritual_mono (cmds : List Cmd) (s : AdventureGame × EventList)
    (h : s.1.state.ritual_complete = true) :
    (runPair s cmds).1.state.ritual_complete = true := by
  induction cmds generalizing s with
  | nil => simpa [runPair] using h
  | cons c cs ih =>
    have h1 : runPair s (c :: cs) = runPair (stepPair s c) cs := by
      simp [runPair]
    rw [h1]
    exact ih (stepPair s c) (stepPair_ritual_mono s c h)

theorem ritualFlipCount_zero (cmds : List Cmd) (s : AdventureGame × EventList)
    (h : s.1.state.ritual_complete = true) : ritualFlipCount s cmds = 0 := by
  induction cmds generalizing s with
  | nil => rfl
  | cons c cs ih =>
    simp only [ritualFlipCount, h]
    rw [ih (stepPair s c) (stepPair_ritual_mono s c h)]
    simp

theorem ritualFlipCount_le_one (cmds : List Cmd) (s : AdventureGame × EventList) :
    ritualFlipCount s cmds ≤ 1 := by
  induction cmds generalizing s with
  | nil => simp [ritualFlipCount]
  | cons c cs ih =>
    by_cases h : s.1.state.ritual_complete = true
    · rw [ritualFlipCount_zero (c :: cs) s h]
      omega
    · simp only [ritualFlipCount]
      by_cases h2 : (stepPair s c).1.state.ritual_complete = true
      · rw [ritualFlipCount_zero cs (stepPair s c) h2]
        split <;> omega
      · have h3 : ¬ (s.1.state.ritual_complete = false
            ∧ (stepPair s c).1.state.ritual_complete = true) := by
          intro hcon
          exact h2 hcon.2
        rw [if_neg h3]
        have := ih (stepPair s c)
        omega

/-- C5.  The ritual flag is monotone: once true it stays true through
every operation (hence it flips false→true at most once along every run,
stated via the flip counter), and whenever an operation flips it, that
operation is a drop at the ritual location whose dropped item makes all
three required items simultaneously members of that location item set
(the set the ritual check inspects: the pre-drop items plus the item just
placed). -/
theorem c5_ritual_flag_once :
    (∀ (s : AdventureGame × EventList) (c : Cmd),
      s.1.state.ritual_complete = true →
        (stepPair s c).1.state.ritual_complete = true)
    ∧ (∀ (s : AdventureGame × EventList) (cmds : List Cmd),
        s.1.state.ritual_complete = true →
          (runPair s cmds).1.state.ritual_complete = true)
    ∧ (∀ (s : AdventureGame × EventList) (cmds : List Cmd),
        ritualFlipCount s cmds ≤ 1)
    ∧ (∀ (s : AdventureGame × EventList) (c : Cmd),
        s.1.state.ritual_complete = false →
        (stepPair s c).1.state.ritual_complete = true →
        ∃ nm it loc, c = Cmd.drop nm
          ∧ (removeFirstItem s.1.player.inventory nm).1 = some it
          ∧ s.1.current_location_id = RITUAL_LOCATION_ID
          ∧ lookupLoc s.1.locations RITUAL_LOCATION_ID = some loc
          ∧ ∀ r ∈ RITUAL_ITEMS, r ∈ loc.items ++ [it.name]) := by
  refine ⟨stepPair_ritual_mono, ?_, ?_, ?_⟩
  · intro s cmds h
    exact runPair_ritual_mono cmds s h
  · intro s cmds
    exact ritualFlipCount_le_one cmds s
  · intro s c hfalse hflip
    cases c with
    | drop nm =>
      rcases drop_ritual_flip s.1 nm hfalse hflip with ⟨it, loc, h1, h2, h3, h4⟩
      exact ⟨nm, it, loc, rfl, h1, h2, h3, h4⟩
    | go d =>
      rw [stepPair, go_command_ritual] at hflip
      rw [hfalse] at hflip
      exact absurd hflip (by simp)
    | take nm =>
      rw [stepPair, take_command_ritual] at hflip
      rw [hfalse] at hflip
      exact absurd hflip (by simp)
    | examine nm => simp_all [stepPair, examine_command]
    | look => simp_all [stepPair]
    | inventoryCmd => simp_all [stepPair]
    | scoreCmd => simp_all [stepPair]
    | readNote => simp_all [stepPair]
    | enterCode code =>
      rw [stepPair, enter_code_command_ritual] at hflip
      rw [hfalse] at hflip
      exact absurd hflip (by simp)

-- ---------------------------------------------------------------------------
-- Concrete ritual worlds and claim C5 witness
-- ---------------------------------------------------------------------------

def wCharger : Item := mkItem "Laptop Charger" "the silver conductor" 10 0 20 10

def wMug : Item := mkItem "Lucky Mug" "the golden vessel" 10 0 20 10

def wBackup : Item := mkItem "backup_usb" "the fixed version" (-1) 0 0 0

def wLoc10 : Location :=
  { id_num := 10, brief_description := "circle",
    long_description := "the founding circle",
    available_commands := [("go east", Sum.inl 0)],
    items := ["USB Drive", "Laptop Charger"] }

/-- At the ritual location, holding the third required item, the other two
already on the ground; the artifact is defined in the registry. -/
def wRitualGame : AdventureGame :=
  { locations := [(10, wLoc10)], items := [wUsb, wCharger, wMug, wBackup],
    current_location_id := 10, ongoing := true,
    player := { inventory := [wMug], score := 0, moves_made := 0,
                has_friend_permission := false },
    max_moves := 28, state := {} }

theorem c5_ritual_flag_once_witness :
    (stepPair (stepPair (wRitualGame, EventList.empty) (Cmd.drop "Lucky Mug"))
        Cmd.look).1.state.ritual_complete = true
    ∧ (runPair (stepPair (wRitualGame, EventList.empty) (Cmd.drop "Lucky Mug"))
        [Cmd.look, Cmd.go "east"]).1.state.ritual_complete = true
    ∧ ritualFlipCount (wRitualGame, EventList.empty)
        [Cmd.drop "Lucky Mug", Cmd.take "backup_usb"] ≤ 1
    ∧ ∃ nm it loc, Cmd.drop "Lucky Mug" = Cmd.drop nm
        ∧ (removeFirstItem wRitualGame.player.inventory nm).1 = some it
        ∧ wRitualGame.current_location_id = RITUAL_LOCATION_ID
        ∧ lookupLoc wRitualGame.locations RITUAL_LOCATION_ID = some loc
        ∧ ∀ r ∈ RITUAL_ITEMS, r ∈ loc.items ++ [it.name] :=
  ⟨c5_ritual_flag_once.1 (stepPair (wRitualGame, EventList.empty)
      (Cmd.drop "Lucky Mug")) Cmd.look (by decide),
   c5_ritual_flag_once.2.1 (stepPair (wRitualGame, EventList.empty)
      (Cmd.drop "Lucky Mug")) [Cmd.look, Cmd.go "east"] (by decide),
   c5_ritual_flag_once.2.2.1 (wRitualGame, EventList.empty)
      [Cmd.drop "Lucky Mug", Cmd.take "backup_usb"],
   c5_ritual_flag_once.2.2.2 (wRitualGame, EventList.empty)
      (Cmd.drop "Lucky Mug") (by decide) (by decide)⟩

-- ---------------------------------------------------------------------------
-- Claim C4: atomicity of the ritual
-- ---------------------------------------------------------------------------

/-- Like `wRitualGame` but with no `backup_usb` in the item registry — the
loader contract does not require the artifact item to be defined. -/
def cxRitualGame : AdventureGame :=
  { wRitualGame with items := [wUsb, wCharger, wMug] }

/-- C4 counterexample: dropping the third required item at the ritual
location with the ritual incomplete sets the completion flag and removes
the three items, yet awards no bonus and places no artifact, because the
registry of this session does not define `backup_usb` — the ritual is NOT
atomic as claimed (the flag/removal mutations happen without the
placement/score mutations). -/
theorem c4_counterexample :
    (drop_command cxRitualGame "Lucky Mug").state.ritual_complete = true
    ∧ (drop_command cxRitualGame "Lucky Mug").player.score
        = cxRitualGame.player.score
    ∧ (lookupLoc (drop_command cxRitualGame "Lucky Mug").locations
        RITUAL_LOCATION_ID).map Location.items = some [] := by
  decide

theorem not_mem_erase3 (l : List String) (hnd : l.Nodup) :
    ∀ r ∈ RITUAL_ITEMS,
      r ∉ RITUAL_ITEMS.foldl (fun acc nm => acc.erase nm) l := by
  intro r hr hmem
  have h1 : RITUAL_ITEMS.foldl (fun acc nm => acc.erase nm) l
      = ((l.erase "USB Drive").erase "Laptop Charger").erase "Lucky Mug" := rfl
  rw [h1] at hmem
  have hr3 : r = "USB Drive" ∨ r = "Laptop Charger" ∨ r = "Lucky Mug" := by
    simpa [RITUAL_ITEMS] using hr
  rcases hr3 with rfl | rfl | rfl
  · have h2 : "USB Drive" ∈ l.erase "USB Drive" :=
      List.mem_of_mem_erase (List.mem_of_mem_erase hmem)
    exact absurd (hnd.mem_erase_iff.mp h2).1 (by simp)
  · have h2 : "Laptop Charger" ∈ (l.erase "USB Drive").erase "Laptop Charger" :=
      List.mem_of_mem_erase hmem
    exact absurd (((hnd.erase _).mem_erase_iff).mp h2).1 (by simp)
  · exact absurd ((((hnd.erase _).erase _).mem_erase_iff).mp hmem).1 (by simp)

theorem find_setItemPos (items : List Item) (nm : String) (pos : Int) (b : Item)
    (h : items.find? (fun it => lowerStr it.name = lowerStr nm) = some b) :
    (setItemPos items nm pos).find? (fun it => lowerStr it.name = lowerStr nm)
      = some { b with current_position := pos } := by
  induction items with
  | nil => simp at h
  | cons a as ih =>
    by_cases hm : lowerStr a.name = lowerStr nm
    · rw [List.find?_cons_of_pos _ (by simpa using hm)] at h
      obtain rfl := Option.some.inj h
      rw [setItemPos, if_pos hm]
      rw [List.find?_cons_of_pos _ (by simpa using hm)]
    · rw [List.find?_cons_of_neg _ (by simpa using hm)] at h
      rw [setItemPos, if_neg hm]
      rw [List.find?_cons_of_neg _ (by simpa using hm)]
      exact ih h

/-- The game state built by the success path of `check_ritual` (a named
copy used to state and prove the atomicity theorem; compare the success
branch of `check_ritual` line by line). -/
def checkRitualFired (g : AdventureGame) (loc : Location) : AdventureGame :=
  let items1 := RITUAL_ITEMS.foldl (fun acc nm => acc.erase nm) loc.items
  let locs1 := setLoc g.locations g.current_location_id ({ loc with items := items1 })
  let locs2 := setLoc locs1 g.current_location_id ({ loc with items := items1 ++ ["backup_usb"] })
  let items2 := setItemPos g.items "backup_usb" RITUAL_LOCATION_ID
  let st1 := { g.state with ritual_complete := true, game_stage := "ritual_done" }
  { g with locations := locs2, items := items2, player := g.player.add_score 50, state := st1 }

/-- C4 (amended).  The ritual check is a no-op whenever the flag is
already set or some required item is missing; and when it fires AND the
derived artifact `backup_usb` is defined in the item registry, then in
that single operation the flag is set, the stage becomes ritual_done, the
three required items all leave the location item set and the artifact is
appended there, the artifact is repositioned to the ritual location, the
fixed 50-point bonus is awarded, and nothing else (inventory, moves,
move limit, current location) changes.  (Without `backup_usb` in the
registry the code sets the flag and removes the items but skips the
placement and the bonus, as the counterexample shows.) -/
theorem c4_ritual_atomic :
    (∀ (g : AdventureGame) (loc : Location),
      lookupLoc g.locations g.current_location_id = some loc →
      (g.state.ritual_complete = true → check_ritual g = g)
      ∧ (RITUAL_ITEMS.all (fun r => decide (r ∈ loc.items)) = false →
          check_ritual g = g))
    ∧ (∀ (g : AdventureGame) (loc : Location) (b : Item),
      lookupLoc g.locations g.current_location_id = some loc →
      g.state.ritual_complete = false →
      RITUAL_ITEMS.all (fun r => decide (r ∈ loc.items)) = true →
      get_item g "backup_usb" = some b →
      loc.items.Nodup →
      (check_ritual g).state.ritual_complete = true
      ∧ (check_ritual g).state.game_stage = "ritual_done"
      ∧ (∃ loc2, lookupLoc (check_ritual g).locations g.current_location_id
            = some loc2
          ∧ loc2.items = (RITUAL_ITEMS.foldl (fun acc nm => acc.erase nm)
              loc.items) ++ ["backup_usb"]
          ∧ ∀ r ∈ RITUAL_ITEMS, r ∉ (RITUAL_ITEMS.foldl
              (fun acc nm => acc.erase nm) loc.items))
      ∧ (check_ritual g).player.score = g.player.score + 50
      ∧ get_item (check_ritual g) "backup_usb"
          = some { b with current_position := RITUAL_LOCATION_ID }
      ∧ (check_ritual g).player.inventory = g.player.inventory
      ∧ (check_ritual g).player.moves_made = g.player.moves_made
      ∧ (check_ritual g).max_moves = g.max_moves
      ∧ (check_ritual g).current_location_id = g.current_location_id) := by
  constructor
  · intro g loc hloc
    exact ⟨fun hf => check_ritual_already g hf,
           fun hall => check_ritual_not_all g loc hloc hall⟩
  · intro g loc b hloc hflag hall hb hnd
    have hbfind : g.items.find?
        (fun itemm => lowerStr itemm.name = lowerStr "backup_usb") = some b := by
      simpa [get_item] using hb
    have hristeq : check_ritual g = checkRitualFired g loc := by
      unfold check_ritual checkRitualFired
      simp only [hloc]
      rw [if_neg (by simp [hflag]), if_neg (by simp [hall])]
      simp only [get_item]
      rw [hbfind]
    rw [hristeq]
    refine ⟨rfl, rfl, ?_, ?_, ?_, rfl, rfl, rfl, rfl⟩
    · have hlk := lookupLoc_setLoc_self
        (setLoc g.locations g.current_location_id
          ({ loc with items := RITUAL_ITEMS.foldl (fun acc nm => acc.erase nm) loc.items }))
        g.current_location_id
        ({ loc with items := RITUAL_ITEMS.foldl (fun acc nm => acc.erase nm) loc.items })
        ({ loc with items := (RITUAL_ITEMS.foldl (fun acc nm => acc.erase nm) loc.items) ++ ["backup_usb"] })
        (lookupLoc_setLoc_self _ _ _ _ hloc)
      exact ⟨_, hlk, rfl, not_mem_erase3 loc.items hnd⟩
    · rfl
    · unfold checkRitualFired get_item
      simp only
      exact find_setItemPos g.items "backup_usb" RITUAL_LOCATION_ID b hbfind

/-- All three required items on the ground at the ritual location, flag
not yet set, artifact defined. -/
def wRitualReady : AdventureGame :=
  { wRitualGame with
    locations := [(10, { wLoc10 with
      items := ["USB Drive", "Laptop Charger", "Lucky Mug"] })],
    player := { inventory := [], score := 0, moves_made := 0,
                has_friend_permission := false } }

def wRitualDone : AdventureGame :=
  { wRitualReady with
    state := { wRitualReady.state with ritual_complete := true } }

theorem c4_ritual_atomic_witness :
    check_ritual wRitualDone = wRitualDone
    ∧ check_ritual wRitualGame = wRitualGame
    ∧ (check_ritual wRitualReady).state.ritual_complete = true
    ∧ (check_ritual wRitualReady).player.score
        = wRitualReady.player.score + 50 :=
  ⟨(c4_ritual_atomic.1 wRitualDone
      ({ wLoc10 with items := ["USB Drive", "Laptop Charger", "Lucky Mug"] })
      (by decide)).1 (by decide),
   (c4_ritual_atomic.1 wRitualGame wLoc10 (by decide)).2 (by decide),
   (c4_ritual_atomic.2 wRitualReady
      ({ wLoc10 with items := ["USB Drive", "Laptop Charger", "Lucky Mug"] })
      wBackup (by decide) (by decide) (by decide) (by decide) (by decide)).1,
   (c4_ritual_atomic.2 wRitualReady
      ({ wLoc10 with items := ["USB Drive", "Laptop Charger", "Lucky Mug"] })
      wBackup (by decide) (by decide) (by decide) (by decide)
      (by decide)).2.2.2.1⟩

-- ---------------------------------------------------------------------------
-- Claim C10: repeatable point awards
-- ---------------------------------------------------------------------------

theorem take_command_score_exact (g : AdventureGame) (nm : String)
    (loc : Location) (it : Item) (matched : String)
    (h1 : lookupLoc g.locations g.current_location_id = some loc)
    (h2 : get_item g nm = some it)
    (h3 : loc.items.find? (fun n => lowerStr n = lowerStr nm) = some matched) :
    (take_command g nm).player.score = g.player.score + it.pickup_points := by
  simp only [take_command, h1, h2, h3]
  split
  · rw [consume_coffee_score]
    simp [Player.add_item, Player.add_score]
  · simp [Player.add_item, Player.add_score]

theorem drop_command_target_score (g : AdventureGame) (nm : String) (it : Item)
    (loc : Location)
    (hrm : (removeFirstItem g.player.inventory nm).1 = some it)
    (hloc : lookupLoc g.locations g.current_location_id = some loc)
    (htp : g.current_location_id = it.target_position)
    (hpos : 0 < it.target_points) :
    g.player.score + it.target_points ≤ (drop_command g nm).player.score
    ∧ (g.current_location_id ≠ RITUAL_LOCATION_ID →
        (drop_command g nm).player.score
          = g.player.score + it.target_points) := by
  simp only [drop_command, Player.remove_item, hrm, hloc]
  rw [if_pos (show g.current_location_id = it.target_position
    ∧ 0 < it.target_points from ⟨htp, hpos⟩)]
  constructor
  · split
    · refine le_trans ?_ (check_ritual_score_ge _)
      simp [Player.add_score]
    · simp [Player.add_score]
  · intro hnr
    rw [if_neg (by simpa using hnr)]
    simp [Player.add_score]

/-- C10.  Point awards are repeatable: every successful take awards the
item pickup points again (with no one-shot guard), every successful drop
at the item target location awards the target points again, and a
drop-then-retake cycle at the target location strictly increases the
score each time (when the target points are positive). -/
theorem c10_points_repeatable :
    (∀ (g : AdventureGame) (nm : String) (loc : Location) (it : Item)
        (matched : String),
      lookupLoc g.locations g.current_location_id = some loc →
      get_item g nm = some it →
      loc.items.find? (fun n => lowerStr n = lowerStr nm) = some matched →
      (take_command g nm).player.score = g.player.score + it.pickup_points)
    ∧ (∀ (g : AdventureGame) (nm : String) (it : Item) (loc : Location),
      (removeFirstItem g.player.inventory nm).1 = some it →
      lookupLoc g.locations g.current_location_id = some loc →
      g.current_location_id = it.target_position →
      0 < it.target_points →
      g.player.score + it.target_points ≤ (drop_command g nm).player.score)
    ∧ (∀ (g : AdventureGame) (nm : String) (it : Item) (loc : Location)
        (it2 : Item) (loc2 : Location) (matched2 : String),
      (removeFirstItem g.player.inventory nm).1 = some it →
      lookupLoc g.locations g.current_location_id = some loc →
      g.current_location_id = it.target_position →
      0 < it.target_points →
      lookupLoc (drop_command g nm).locations
        (drop_command g nm).current_location_id = some loc2 →
      get_item (drop_command g nm) nm = some it2 →
      loc2.items.find? (fun n => lowerStr n = lowerStr nm) = some matched2 →
      0 ≤ it2.pickup_points →
      g.player.score < (take_command (drop_command g nm) nm).player.score) := by
  refine ⟨take_command_score_exact, ?_, ?_⟩
  · intro g nm it loc hrm hloc htp hpos
    exact (drop_command_target_score g nm it loc hrm hloc htp hpos).1
  · intro g nm it loc it2 loc2 matched2 hrm hloc htp hpos hloc2 hget2 hfind2 hp2
    have hd := (drop_command_target_score g nm it loc hrm hloc htp hpos).1
    have ht := take_command_score_exact (drop_command g nm) nm loc2 it2 matched2
      hloc2 hget2 hfind2
    omega

def wLoc3 : Location :=
  { id_num := 3, brief_description := "hall", long_description := "the hall",
    available_commands := [], items := [] }

def wToonie3 : Item := mkItem "toonie" "a two-dollar coin" 3 3 5 2

/-- A bonus-item world: the player holds the toonie while standing at the
toonie target location. -/
def wCycleGame : AdventureGame :=
  { locations := [(3, wLoc3)], items := [wToonie3],
    current_location_id := 3, ongoing := true,
    player := { inventory := [wToonie3], score := 0, moves_made := 0,
                has_friend_permission := false },
    max_moves := 28, state := {} }

theorem c10_points_repeatable_witness :
    (take_command (drop_command wCycleGame "toonie") "toonie").player.score
      = (drop_command wCycleGame "toonie").player.score + 2
    ∧ wCycleGame.player.score + 5
        ≤ (drop_command wCycleGame "toonie").player.score
    ∧ wCycleGame.player.score
        < (take_command (drop_command wCycleGame "toonie") "toonie").player.score :=
  ⟨c10_points_repeatable.1 (drop_command wCycleGame "toonie") "toonie"
      ({ wLoc3 with items := ["toonie"] }) wToonie3 "toonie"
      (by decide) (by decide) (by decide),
   c10_points_repeatable.2.1 wCycleGame "toonie" wToonie3 wLoc3
      (by decide) (by decide) (by decide) (by decide),
   c10_points_repeatable.2.2 wCycleGame "toonie" wToonie3 wLoc3 wToonie3
      ({ wLoc3 with items := ["toonie"] }) "toonie"
      (by decide) (by decide) (by decide) (by decide) (by decide) (by decide)
      (by decide) (by decide)⟩

-- ---------------------------------------------------------------------------
-- EventList: operation log, ghost chain, and structural invariant (C7, C8)
-- ---------------------------------------------------------------------------

/-- One call against the `EventList` API. -/
inductive LogOp where
  | add (e : Event) (command : Option String)
  | removeLast
deriving DecidableEq, Repr

def stepLog (l : EventList) : LogOp → EventList
  | LogOp.add e c => add_event l e c
  | LogOp.removeLast => remove_last_event l

def runLog (ops : List LogOp) : EventList := ops.foldl stepLog EventList.empty

/-- Ghost data carried alongside a run: for every allocated address, the
command argument of the `add` that allocated it (indexed by address), and
the current chain of live addresses from first to last. -/
def ghostStep (gc : List (Option String) × List Nat) :
    LogOp → List (Option String) × List Nat
  | LogOp.add _ c => (gc.1 ++ [c], gc.2 ++ [gc.1.length])
  | LogOp.removeLast => (gc.1, gc.2.dropLast)

def ghostRun (ops : List LogOp) : List (Option String) × List Nat :=
  ops.foldl ghostStep ([], [])

/-- The doubly-linked chain shape: walking `addrs` from a node whose
predecessor pointer must be `p`, every node exists in the store, `prev`
points to the node before it, `next` to the node after it (`none` at the
last), the last node carries no pending command, and every other node
carries exactly the command recorded (in `cmds`) when its successor was
allocated. -/
def linksOk (store : List Event) (cmds : List (Option String)) :
    Option Nat → List Nat → Prop
  | _, [] => True
  | p, a :: rest =>
      ∃ nd, store[a]? = some nd ∧ nd.prev = p
        ∧ (match rest.head? with
           | none => nd.next = none ∧ nd.next_command = none
           | some b => nd.next = some b ∧ nd.next_command = cmds.getD b none)
        ∧ linksOk store cmds (some a) rest

/-- The full structural invariant of `EventList` relative to the ghost
command list and chain: either the chain is empty and both end pointers
are `none`, or `first` points at the head and `last` at the getLast of
the chain, which is strictly increasing (addresses are allocation-
ordered, hence distinct), in range, and correctly doubly linked. -/
def EventListWF (l : EventList) (cmds : List (Option String))
    (addrs : List Nat) : Prop :=
  l.store.length = cmds.length
  ∧ List.Pairwise (· < ·) addrs
  ∧ (∀ a ∈ addrs, a < l.store.length)
  ∧ l.first = addrs.head?
  ∧ l.last = addrs.getLast?
  ∧ linksOk l.store cmds none addrs

theorem linksOk_congr (store store2 : List Event)
    (cmds cmds2 : List (Option String)) :
    ∀ (addrs : List Nat) (p : Option Nat), linksOk store cmds p addrs →
    (∀ a ∈ addrs, store2[a]? = store[a]?) →
    (∀ a ∈ addrs, cmds2.getD a none = cmds.getD a none) →
    linksOk store2 cmds2 p addrs := by
  intro addrs
  induction addrs with
  | nil => intro p _ _ _; trivial
  | cons a rest ih =>
    intro p h hs hc
    obtain ⟨nd, h1, h2, h3, h4⟩ := h
    refine ⟨nd, ?_, h2, ?_, ?_⟩
    · rw [hs a (List.mem_cons_self a rest)]
      exact h1
    · cases hr : rest.head? with
      | none => rw [hr] at h3; exact h3
      | some b =>
        rw [hr] at h3
        have h3b : nd.next = some b ∧ nd.next_command = cmds.getD b none := h3
        have hb : b ∈ rest := by
          cases rest with
          | nil => simp at hr
          | cons x xs =>
            simp only [List.head?] at hr
            exact (Option.some.inj hr) ▸ List.mem_cons_self x xs
        exact show nd.next = some b ∧ nd.next_command = cmds2.getD b none from
          ⟨h3b.1, by rw [hc b (List.mem_cons_of_mem a hb)]; exact h3b.2⟩
    · exact ih (some a) h4
        (fun x hx => hs x (List.mem_cons_of_mem a hx))
        (fun x hx => hc x (List.mem_cons_of_mem a hx))

theorem linksOk_mem_node (store : List Event) (cmds : List (Option String)) :
    ∀ (addrs : List Nat) (p : Option Nat), linksOk store cmds p addrs →
    ∀ a ∈ addrs, ∃ nd, store[a]? = some nd := by
  intro addrs
  induction addrs with
  | nil => intro p _ a ha; simp at ha
  | cons x rest ih =>
    intro p h a ha
    obtain ⟨nd, h1, _, _, h4⟩ := h
    rcases List.mem_cons.mp ha with rfl | ha2
    · exact ⟨nd, h1⟩
    · exact ih (some x) h4 a ha2

theorem linksOk_last_single (store : List Event) (cmds : List (Option String))
    (p : Option Nat) (a : Nat) (h : linksOk store cmds p [a]) :
    ∃ nd, store[a]? = some nd ∧ nd.prev = p ∧ nd.next = none
      ∧ nd.next_command = none := by
  obtain ⟨nd, h1, h2, h3, _⟩ := h
  simp only [List.head?] at h3
  exact ⟨nd, h1, h2, h3.1, h3.2⟩

theorem linksOk_last_node (store : List Event) (cmds : List (Option String))
    (la : Nat) :
    ∀ (addrs : List Nat) (p : Option Nat), linksOk store cmds p addrs →
    addrs.getLast? = some la →
    ∃ nd, store[la]? = some nd ∧ nd.next = none ∧ nd.next_command = none := by
  intro addrs
  induction addrs with
  | nil => intro p _ hla; simp at hla
  | cons x rest ih =>
    intro p h hla
    cases rest with
    | nil =>
      simp only [List.getLast?_singleton] at hla
      obtain rfl := Option.some.inj hla
      obtain ⟨nd, h1, h2, h3, h4⟩ := linksOk_last_single store cmds p x h
      exact ⟨nd, h1, h3, h4⟩
    | cons y ys =>
      rw [List.getLast?_cons_cons] at hla
      obtain ⟨nd, _, _, _, h4⟩ := h
      exact ih (some x) h4 hla

theorem linksOk_last_prev (store : List Event) (cmds : List (Option String))
    (la b : Nat) :
    ∀ (addrs : List Nat) (p : Option Nat), linksOk store cmds p addrs →
    addrs.getLast? = some la → addrs.dropLast.getLast? = some b →
    ∃ nd, store[la]? = some nd ∧ nd.prev = some b := by
  intro addrs
  induction addrs with
  | nil => intro p _ hla _; simp at hla
  | cons x rest ih =>
    intro p h hla hb
    cases rest with
    | nil => simp at hb
    | cons y ys =>
      obtain ⟨nd, h1, h2, h3, h4⟩ := h
      cases ys with
      | nil =>
        have hbx : b = x := by
          simp only [List.dropLast, List.getLast?_singleton] at hb
          exact (Option.some.inj hb).symm
        have hlay : la = y := by
          rw [List.getLast?_cons_cons, List.getLast?_singleton] at hla
          exact (Option.some.inj hla).symm
        obtain ⟨nd2, g1, g2, g3, g4⟩ := linksOk_last_single store cmds (some x) y h4
        refine ⟨nd2, ?_, ?_⟩
        · rw [hlay]; exact g1
        · rw [hbx]; exact g2
      | cons z zs =>
        rw [List.getLast?_cons_cons] at hla
        have hb2 : (y :: z :: zs).dropLast.getLast? = some b := by
          have hshape : (x :: y :: z :: zs).dropLast
              = x :: (y :: z :: zs).dropLast := rfl
          rw [hshape] at hb
          cases hd : (y :: z :: zs).dropLast with
          | nil => simp [List.dropLast] at hd
          | cons w ws =>
            rw [hd] at hb
            rw [List.getLast?_cons_cons] at hb
            exact hb
        exact ih (some x) h4 hla hb2

theorem getLast_mem_of_eq (la : Nat) :
    ∀ l : List Nat, l.getLast? = some la → la ∈ l := by
  intro l
  induction l with
  | nil => intro h; simp at h
  | cons a rest ih =>
    intro h
    cases rest with
    | nil => simp_all
    | cons y ys =>
      rw [List.getLast?_cons_cons] at h
      exact List.mem_cons_of_mem a (ih h)

theorem getLast?_cons_of_ne_nil (x : Nat) (l : List Nat) (h : l ≠ []) :
    (x :: l).getLast? = l.getLast? := by
  cases l with
  | nil => exact absurd rfl h
  | cons y ys => exact List.getLast?_cons_cons

theorem pairwise_getLast_lt (la : Nat) :
    ∀ addrs : List Nat, List.Pairwise (· < ·) addrs →
    addrs.getLast? = some la → ∀ x ∈ addrs.dropLast, x < la := by
  intro addrs
  induction addrs with
  | nil => intro _ hla; simp at hla
  | cons a rest ih =>
    intro hp hla x hx
    cases rest with
    | nil => simp [List.dropLast] at hx
    | cons y ys =>
      rw [List.getLast?_cons_cons] at hla
      have hx2 : x = a ∨ x ∈ (y :: ys).dropLast := by
        simpa [List.dropLast] using hx
      rcases hx2 with rfl | hx3
      · have hmem : la ∈ y :: ys := getLast_mem_of_eq la (y :: ys) hla
        exact (List.pairwise_cons.mp hp).1 la hmem
      · exact ih (List.pairwise_cons.mp hp).2 hla x hx3

theorem linksOk_snoc (store store2 : List Event)
    (cmds cmds2 : List (Option String)) (la n : Nat) (c : Option String)
    (ndla ndn : Event) :
    ∀ (addrs : List Nat) (p : Option Nat), linksOk store cmds p addrs →
    addrs.getLast? = some la →
    (∀ a ∈ addrs, a ≠ la → store2[a]? = store[a]?) →
    (∀ a ∈ addrs, cmds2.getD a none = cmds.getD a none) →
    (∀ x ∈ addrs.dropLast, x ≠ la) →
    store[la]? = some ndla →
    store2[la]? = some { ndla with next := some n, next_command := c } →
    store2[n]? = some ndn →
    ndn.prev = some la → ndn.next = none → ndn.next_command = none →
    cmds2.getD n none = c →
    linksOk store2 cmds2 p (addrs ++ [n]) := by
  intro addrs
  induction addrs with
  | nil => intro p _ hla; simp at hla
  | cons x rest ih =>
    intro p h hla hothers hcmds hdist hsla hsla2 hsn hprev hnext hncmd hcn
    obtain ⟨nd, h1, h2, h3, h4⟩ := h
    cases rest with
    | nil =>
      have hxla : x = la := by simpa using hla
      subst hxla
      have hnd : nd = ndla := by
        rw [h1] at hsla
        exact Option.some.inj hsla
      refine ⟨{ ndla with next := some n, next_command := c }, hsla2, ?_, ?_, ?_⟩
      · show ndla.prev = p
        rw [← hnd]
        exact h2
      · exact ⟨rfl, hcn.symm⟩
      · exact ⟨ndn, hsn, hprev, ⟨hnext, hncmd⟩, trivial⟩
    | cons y ys =>
      have hxmem : x ∈ (x :: y :: ys).dropLast := by simp [List.dropLast]
      have hxne : x ≠ la := hdist x hxmem
      have hla2 : (y :: ys).getLast? = some la := by
        rw [List.getLast?_cons_cons] at hla
        exact hla
      refine ⟨nd, ?_, h2, ?_, ?_⟩
      · rw [hothers x (List.mem_cons_self x (y :: ys)) hxne]
        exact h1
      · have h3b : nd.next = some y ∧ nd.next_command = cmds.getD y none := h3
        show nd.next = some y ∧ nd.next_command = cmds2.getD y none
        refine ⟨h3b.1, ?_⟩
        rw [hcmds y (by simp)]
        exact h3b.2
      · apply ih (some x) h4 hla2
        · intro a ha hne
          exact hothers a (List.mem_cons_of_mem x ha) hne
        · intro a ha
          exact hcmds a (List.mem_cons_of_mem x ha)
        · intro z hz
          apply hdist z
          have hshape : (x :: y :: ys).dropLast = x :: (y :: ys).dropLast := rfl
          rw [hshape]
          exact List.mem_cons_of_mem x hz
        · exact hsla
        · exact hsla2
        · exact hsn
        · exact hprev
        · exact hnext
        · exact hncmd
        · exact hcn

theorem linksOk_dropLast (store store2 : List Event)
    (cmds : List (Option String)) (la b : Nat) (ndb : Event) :
    ∀ (addrs : List Nat) (p : Option Nat), linksOk store cmds p addrs →
    addrs.getLast? = some la →
    addrs.dropLast.getLast? = some b →
    (∀ a ∈ addrs.dropLast, a ≠ b → store2[a]? = store[a]?) →
    (∀ a ∈ addrs.dropLast.dropLast, a ≠ b) →
    store[b]? = some ndb →
    store2[b]? = some { ndb with next := none, next_command := none } →
    linksOk store2 cmds p addrs.dropLast := by
  intro addrs
  induction addrs with
  | nil => intro p _ hla; simp at hla
  | cons x rest ih =>
    intro p h hla hb hothers hdist hsb hsb2
    obtain ⟨nd, h1, h2, h3, h4⟩ := h
    cases rest with
    | nil => simp at hb
    | cons y ys =>
      cases ys with
      | nil =>
        have hbx : x = b := by simpa [List.dropLast] using hb
        have hnd : nd = ndb := by
          rw [hbx] at h1
          rw [h1] at hsb
          exact Option.some.inj hsb
        show linksOk store2 cmds p [x]
        refine ⟨{ ndb with next := none, next_command := none }, ?_, ?_, ?_, trivial⟩
        · rw [hbx]
          exact hsb2
        · show ndb.prev = p
          rw [← hnd]
          exact h2
        · exact ⟨rfl, rfl⟩
      | cons z zs =>
        have hxmem2 : x ∈ (x :: y :: z :: zs).dropLast.dropLast := by
          simp [List.dropLast]
        have hxne : x ≠ b := hdist x hxmem2
        have hxmem : x ∈ (x :: y :: z :: zs).dropLast := by
          simp [List.dropLast]
        show linksOk store2 cmds p (x :: (y :: z :: zs).dropLast)
        refine ⟨nd, ?_, h2, ?_, ?_⟩
        · rw [hothers x hxmem hxne]
          exact h1
        · have h3b : nd.next = some y ∧ nd.next_command = cmds.getD y none := h3
          show nd.next = some y ∧ nd.next_command = cmds.getD y none
          exact h3b
        · apply ih (some x) h4
          · rw [List.getLast?_cons_cons] at hla
            exact hla
          · have hshape : (x :: y :: z :: zs).dropLast
                = x :: (y :: z :: zs).dropLast := rfl
            rw [hshape] at hb
            rw [getLast?_cons_of_ne_nil x _ (by simp [List.dropLast])] at hb
            exact hb
          · intro a ha hne
            apply hothers a ?_ hne
            have hshape : (x :: y :: z :: zs).dropLast
                = x :: (y :: z :: zs).dropLast := rfl
            rw [hshape]
            exact List.mem_cons_of_mem x ha
          · intro a ha
            apply hdist a
            have hshape : (x :: y :: z :: zs).dropLast.dropLast
                = x :: (y :: z :: zs).dropLast.dropLast := by
              simp [List.dropLast]
            rw [hshape]
            exact List.mem_cons_of_mem x ha
          · exact hsb
          · exact hsb2

theorem wf_add (l : EventList) (cmds : List (Option String))
    (addrs : List Nat) (e : Event) (c : Option String)
    (h : EventListWF l cmds addrs) :
    EventListWF (add_event l e c) (cmds ++ [c])
      (addrs ++ [l.store.length]) := by
  obtain ⟨hlen, hpw, hbound, hfirst, hlast, hlinks⟩ := h
  by_cases hemp : l.first.isNone = true
  · have haddrs : addrs = [] := by
      cases addrs with
      | nil => rfl
      | cons a as =>
        rw [hfirst] at hemp
        simp [List.head?] at hemp
    subst haddrs
    unfold add_event
    rw [if_pos hemp]
    refine ⟨?_, ?_, ?_, ?_, ?_, ?_⟩
    · simp [hlen]
    · simp
    · intro a ha
      simp only [List.nil_append, List.mem_singleton] at ha
      subst ha
      simp
    · simp
    · simp
    · refine ⟨{ e with prev := none, next := none, next_command := none },
        ?_, rfl, ⟨rfl, rfl⟩, trivial⟩
      exact List.getElem?_concat_length l.store _
  · have haddrs_ne : addrs ≠ [] := by
      intro hcon
      subst hcon
      rw [hfirst] at hemp
      simp at hemp
    obtain ⟨la, hla⟩ : ∃ la, addrs.getLast? = some la := by
      cases haddr : addrs.getLast? with
      | none => exact absurd (List.getLast?_eq_none_iff.mp haddr) haddrs_ne
      | some la => exact ⟨la, rfl⟩
    have hlamem : la ∈ addrs := getLast_mem_of_eq la addrs hla
    have hlalt : la < l.store.length := hbound la hlamem
    obtain ⟨ndla, hndla, hndnext, hndcmd⟩ :=
      linksOk_last_node l.store cmds la addrs none hlinks hla
    have hlast2 : l.last = some la := by rw [hlast, hla]
    unfold add_event
    rw [if_neg hemp]
    simp only [hlast2, hndla]
    refine ⟨?_, ?_, ?_, ?_, ?_, ?_⟩
    · simp [hlen]
    · rw [List.pairwise_append]
      refine ⟨hpw, by simp, ?_⟩
      intro a ha b hb
      simp only [List.mem_singleton] at hb
      subst hb
      exact hbound a ha
    · intro a ha
      rcases List.mem_append.mp ha with h1 | h1
      · have := hbound a h1
        simp only [List.length_append, List.length_set, List.length_singleton]
        omega
      · simp only [List.mem_singleton] at h1
        subst h1
        simp only [List.length_append, List.length_set, List.length_singleton]
        omega
    · rw [hfirst]
      cases addrs with
      | nil => exact absurd rfl haddrs_ne
      | cons a as => rfl
    · rw [List.getLast?_concat]
    · set lastNode1 : Event :=
        { ndla with next := some l.store.length, next_command := c } with hln1
      set nodeNew : Event :=
        { e with prev := some la, next := none, next_command := none } with hnn
      show linksOk ((l.store.set la lastNode1) ++ [nodeNew]) (cmds ++ [c])
        none (addrs ++ [l.store.length])
      apply linksOk_snoc l.store ((l.store.set la lastNode1) ++ [nodeNew])
        cmds (cmds ++ [c]) la l.store.length c ndla nodeNew
        addrs none hlinks hla
      · intro a ha hne
        rw [List.getElem?_append_left (by simp [List.length_set]; exact hbound a ha)]
        exact List.getElem?_set_ne (fun hcon => hne hcon.symm)
      · intro a ha
        exact List.getD_append cmds [c] none a (hlen ▸ hbound a ha)
      · intro x hx
        exact Nat.ne_of_lt (pairwise_getLast_lt la addrs hpw hla x hx)
      · exact hndla
      · rw [List.getElem?_append_left (by simp [List.length_set]; exact hlalt)]
        exact List.getElem?_set_self (by simpa using hlalt)
      · rw [show l.store.length = (l.store.set la lastNode1).length
          from (List.length_set _ _ _).symm]
        exact List.getElem?_concat_length _ _
      · rfl
      · rfl
      · rfl
      · rw [List.getD_eq_getElem?_getD, hlen, List.getElem?_concat_length]
        rfl

theorem wf_remove (l : EventList) (cmds : List (Option String))
    (addrs : List Nat) (h : EventListWF l cmds addrs) :
    EventListWF (remove_last_event l) cmds addrs.dropLast := by
  obtain ⟨hlen, hpw, hbound, hfirst, hlast, hlinks⟩ := h
  cases haddrs : addrs with
  | nil =>
    subst haddrs
    have h1 : l.first = none := by simpa using hfirst
    have h2 : remove_last_event l = l := by
      unfold remove_last_event
      rw [h1]
    rw [h2]
    exact ⟨hlen, by simp, by simp, hfirst, hlast, by simpa using hlinks⟩
  | cons a0 rest0 =>
    subst haddrs
    cases rest0 with
    | nil =>
      -- singleton chain: the list becomes empty
      have hf : l.first = some a0 := by simpa using hfirst
      have hl : l.last = some a0 := by simpa using hlast
      have h2 : remove_last_event l
          = { l with first := none, last := none } := by
        unfold remove_last_event
        simp [hf, hl]
      rw [h2]
      exact ⟨hlen, by simp, by simp, rfl, rfl, trivial⟩
    | cons a1 rest1 =>
      -- chain of length at least two
      have hf : l.first = some a0 := by simpa using hfirst
      obtain ⟨la, hla⟩ : ∃ la, (a0 :: a1 :: rest1).getLast? = some la := by
        cases haddr : (a0 :: a1 :: rest1).getLast? with
        | none => exact absurd (List.getLast?_eq_none_iff.mp haddr) (by simp)
        | some x => exact ⟨x, rfl⟩
      have hl : l.last = some la := by rw [hlast, hla]
      have hdropne : (a0 :: a1 :: rest1).dropLast ≠ [] := by
        cases rest1 <;> simp [List.dropLast]
      obtain ⟨b, hb⟩ : ∃ b, (a0 :: a1 :: rest1).dropLast.getLast? = some b := by
        cases haddr : (a0 :: a1 :: rest1).dropLast.getLast? with
        | none => exact absurd (List.getLast?_eq_none_iff.mp haddr) hdropne
        | some x => exact ⟨x, rfl⟩
      have hbmem : b ∈ (a0 :: a1 :: rest1).dropLast :=
        getLast_mem_of_eq b _ hb
      have hbmem2 : b ∈ (a0 :: a1 :: rest1) :=
        (List.dropLast_sublist _).mem hbmem
      have hblt : b < la :=
        pairwise_getLast_lt la _ hpw hla b hbmem
      have hane : a0 ≠ la := by
        have := pairwise_getLast_lt la _ hpw hla a0 (by simp [List.dropLast])
        omega
      have hfne : a0 = la → False := fun hcon => hane hcon
      obtain ⟨ndla, hndla, hprevla⟩ :=
        linksOk_last_prev l.store cmds la b _ none hlinks hla hb
      obtain ⟨ndb, hndb⟩ :=
        linksOk_mem_node l.store cmds _ none hlinks b hbmem2
      have hlamem : la ∈ a0 :: a1 :: rest1 := getLast_mem_of_eq la _ hla
      have h2 : remove_last_event l
          = { l with store := l.store.set b ({ ndb with next := none, next_command := none }), last := some b } := by
        unfold remove_last_event
        simp only [hf, hl]
        rw [if_neg hfne]
        simp only [hndla, hprevla, hndb]
      rw [h2]
      refine ⟨?_, ?_, ?_, ?_, ?_, ?_⟩
      · simp [hlen]
      · exact List.Pairwise.sublist (List.dropLast_sublist _) hpw
      · intro a ha
        simp only [List.length_set]
        exact hbound a ((List.dropLast_sublist _).mem ha)
      · rw [hf]
        cases rest1 <;> rfl
      · rw [hb]
      · apply linksOk_dropLast l.store _ cmds la b ndb _ none hlinks hla hb
        · intro a ha hne
          exact List.getElem?_set_ne (fun hcon => hne hcon.symm)
        · intro a ha
          have hlt := pairwise_getLast_lt b _
            (List.Pairwise.sublist (List.dropLast_sublist _) hpw) hb a ha
          omega
        · exact hndb
        · exact List.getElem?_set_self (hbound b hbmem2)

theorem wf_empty : EventListWF EventList.empty [] [] := by
  refine ⟨rfl, by simp, by simp, rfl, rfl, trivial⟩

theorem runLog_wf_aux : ∀ (ops : List LogOp) (l : EventList)
    (gc : List (Option String) × List Nat), EventListWF l gc.1 gc.2 →
    EventListWF (ops.foldl stepLog l) (ops.foldl ghostStep gc).1
      (ops.foldl ghostStep gc).2 := by
  intro ops
  induction ops with
  | nil => intro l gc h; exact h
  | cons op rest ih =>
    intro l gc h
    simp only [List.foldl_cons]
    apply ih
    cases op with
    | add e c =>
      have h2 := wf_add l gc.1 gc.2 e c h
      have hlen : l.store.length = gc.1.length := h.1
      rw [hlen] at h2
      simpa [stepLog, ghostStep] using h2
    | removeLast =>
      exact wf_remove l gc.1 gc.2 h

/-- C8.  Along every sequence of EventList operations from the empty
list, the structural invariant `EventListWF` holds for the ghost command
list and address chain of the run: the chain is strictly ordered with a
unique head (no predecessor) and a unique last node (no successor and no
pending command), every non-last node points forward/backward correctly
and carries exactly the command recorded when its successor was added;
moreover `is_empty` holds iff `first` is absent iff `last` is absent. -/
theorem c8_eventlist_invariant :
    ∀ ops : List LogOp,
      EventListWF (runLog ops) (ghostRun ops).1 (ghostRun ops).2
      ∧ (is_empty (runLog ops) = true ↔ (runLog ops).first = none)
      ∧ ((runLog ops).first = none ↔ (runLog ops).last = none) := by
  intro ops
  have hwf : EventListWF (runLog ops) (ghostRun ops).1 (ghostRun ops).2 :=
    runLog_wf_aux ops EventList.empty ([], []) wf_empty
  refine ⟨hwf, ?_, ?_⟩
  · simp [is_empty, Option.isNone_iff_eq_none]
  · obtain ⟨_, _, _, hfirst, hlast, _⟩ := hwf
    rw [hfirst, hlast]
    constructor
    · intro h
      have h2 : (ghostRun ops).2 = [] := by
        cases hg : (ghostRun ops).2 with
        | nil => rfl
        | cons x xs => rw [hg] at h; simp [List.head?] at h
      rw [h2]
      rfl
    · intro h
      have h2 : (ghostRun ops).2 = [] := List.getLast?_eq_none_iff.mp h
      rw [h2]
      rfl

/-- Folding a batch of `add_event` calls, as `Event × command` pairs. -/
def applyAdds (l : EventList) (adds : List (Event × Option String)) :
    EventList :=
  adds.foldl (fun acc p => add_event acc p.1 p.2) l

theorem wf_applyAdds : ∀ (adds : List (Event × Option String))
    (l : EventList) (cmds : List (Option String)) (addrs : List Nat),
    EventListWF l cmds addrs →
    ∃ cmds2 addrs2, EventListWF (applyAdds l adds) cmds2 addrs2
      ∧ addrs2.length = addrs.length + adds.length := by
  intro adds
  induction adds with
  | nil =>
    intro l cmds addrs h
    exact ⟨cmds, addrs, h, by simp [applyAdds]⟩
  | cons p rest ih =>
    intro l cmds addrs h
    have h2 := wf_add l cmds addrs p.1 p.2 h
    obtain ⟨c2, a2, hwf, hlen⟩ := ih (add_event l p.1 p.2) (cmds ++ [p.2])
      (addrs ++ [l.store.length]) h2
    refine ⟨c2, a2, ?_, ?_⟩
    · simpa [applyAdds, List.foldl_cons] using hwf
    · rw [hlen]
      simp only [List.length_append, List.length_cons, List.length_nil]
      omega

theorem wf_remove_iter : ∀ (k : Nat) (l : EventList)
    (cmds : List (Option String)) (addrs : List Nat),
    EventListWF l cmds addrs →
    EventListWF (remove_last_event^[k] l) cmds (List.dropLast^[k] addrs) := by
  intro k
  induction k with
  | zero => intro l cmds addrs h; exact h
  | succ k ih =>
    intro l cmds addrs h
    rw [Function.iterate_succ_apply, Function.iterate_succ_apply]
    exact ih _ _ _ (wf_remove l cmds addrs h)

theorem dropLast_iter_length : ∀ (k : Nat) (xs : List Nat),
    (List.dropLast^[k] xs).length = xs.length - k := by
  intro k
  induction k with
  | zero => intro xs; rfl
  | succ k ih =>
    intro xs
    rw [Function.iterate_succ_apply, ih xs.dropLast, List.length_dropLast]
    omega

/-- C7.  Any `n` adds from the empty log followed by `n` `remove_last`
calls leave the log empty; and concretely, after `add(L1); add(L2, cmd);
remove_last()` the id traversal equals `[L1.id]` and the remaining last
node has its pending command cleared. -/
theorem c7_roundtrip :
    (∀ adds : List (Event × Option String),
      is_empty (remove_last_event^[adds.length]
        (applyAdds EventList.empty adds)) = true)
    ∧ (∀ (e1 e2 : Event) (cmd : String),
      get_id_log (remove_last_event
        (add_event (add_event EventList.empty e1 none) e2 (some cmd)))
        = [e1.id_num]
      ∧ ∃ a nd,
          (remove_last_event (add_event (add_event EventList.empty e1 none)
            e2 (some cmd))).last = some a
          ∧ (remove_last_event (add_event (add_event EventList.empty e1 none)
              e2 (some cmd))).store[a]? = some nd
          ∧ nd.next_command = none) := by
  constructor
  · intro adds
    obtain ⟨c2, a2, hwf, hlen⟩ := wf_applyAdds adds EventList.empty [] [] wf_empty
    have h2 := wf_remove_iter adds.length _ c2 a2 hwf
    have h3 : (List.dropLast^[adds.length] a2).length = 0 := by
      rw [dropLast_iter_length]
      simp only [List.length_nil, Nat.zero_add] at hlen
      omega
    have h4 : List.dropLast^[adds.length] a2 = [] :=
      List.eq_nil_of_length_eq_zero h3
    obtain ⟨_, _, _, hfirst, _, _⟩ := h2
    rw [h4] at hfirst
    simp [is_empty, hfirst]
  · intro e1 e2 cmd
    refine ⟨rfl, 0,
      { e1 with prev := none, next := none, next_command := none },
      rfl, rfl, rfl⟩

end Adventure
